import Mathlib

/-!
Verification development for the Canvas-Crawler crawl-orchestration engine.

The definitions below are a shallow embedding of the TypeScript sources
`src/extension/src/background/queueManager.ts`,
`src/extension/src/background/incrementalSync.ts` and
`src/extension/src/background/scheduler.ts`.
JavaScript millisecond clocks (`Date.now()`) are passed in explicitly as
`now` arguments; `Math.random()` draws are passed in as explicit rational
parameters; asynchronous effects (network fetch, `chrome.storage`) are
modelled by explicit outcome parameters and explicit storage records.
-/

namespace CanvasCrawler

/-! ## queueManager.ts: simpleHash / generateTaskId -/

/-- JavaScript `ToInt32` wrapping, used by the bitwise operators in
`QueueManager.simpleHash` (`hash << 5`, `hash & hash`). -/
def toInt32 (n : Int) : Int :=
  (n + 2 ^ 31) % 2 ^ 32 - 2 ^ 31

/-- One loop iteration of `QueueManager.simpleHash`:
`hash = ((hash << 5) - hash) + charCode; hash = hash & hash`. -/
def simpleHashStep (hash : Int) (c : Nat) : Int :=
  toInt32 (toInt32 (hash * 32) - hash + c)

/-- The integer accumulator of `QueueManager.simpleHash` over all UTF-16
code units of the string (source chars here are ASCII, where code points
and code units agree). -/
def simpleHashInt (s : List Char) : Int :=
  s.foldl (fun h c => simpleHashStep h c.toNat) 0

/-- Base-36 digit characters, as produced by JavaScript
`Number.prototype.toString(36)`: `0`-`9` then `a`-`z`. -/
def digitChar36 (n : Nat) : Char :=
  if n < 10 then Char.ofNat (48 + n) else Char.ofNat (87 + n)

/-- Most-significant-first base-36 digits accumulator; the first argument
is recursion fuel (the value itself suffices, since `n / 36 < n`). -/
def toBase36Go : Nat → Nat → List Char → List Char
  | _, 0, acc => acc
  | 0, _ + 1, acc => acc
  | f + 1, n + 1, acc => toBase36Go f ((n + 1) / 36) (digitChar36 ((n + 1) % 36) :: acc)

/-- JavaScript `n.toString(36)` for a natural number. -/
def toBase36 (n : Nat) : String :=
  if n = 0 then "0" else String.mk (toBase36Go n n [])

/-- `QueueManager.simpleHash`: `Math.abs(hash).toString(36)`. -/
def simpleHash (s : String) : String :=
  toBase36 (simpleHashInt s.data).natAbs

/-- `QueueManager.generateTaskId`:
`type + "_" + Date.now() + "_" + simpleHash(url)`.  The current clock value
is the explicit `now` argument. -/
def generateTaskId (type url : String) (now : Nat) : String :=
  type ++ "_" ++ toString now ++ "_" ++ simpleHash url

/-! ## queueManager.ts: task model and queue state -/

/-- `CrawlTask` from queueManager.ts.  Task kinds are kept as their literal
strings; the `metadata` field (opaque, never read by the queue logic) is
omitted. -/
structure CrawlTask where
  id : String
  type : String
  url : String
  courseId : Option String := none
  priority : Nat
  retryCount : Nat
  maxRetries : Nat
  createdAt : Nat
  scheduledFor : Nat
  lastAttempt : Option Nat := none
  error : Option String := none
deriving Repr, DecidableEq

/-- `Omit<CrawlTask, 'id' | 'retryCount' | 'createdAt'>`: the caller-supplied
task specification accepted by `QueueManager.addTask`. -/
structure TaskSpec where
  type : String
  url : String
  courseId : Option String := none
  priority : Nat
  maxRetries : Nat
  scheduledFor : Nat
deriving Repr, DecidableEq

/-- A JavaScript `Set<string>` in insertion order: adding an element that is
already present leaves the set unchanged. -/
def addSet (s : List String) (x : String) : List String :=
  if x ∈ s then s else s ++ [x]

/-- An entry of the `recentErrors` record kept in `chrome.storage.local`
(the object literal built in `QueueManager.executeTask`'s failure branch). -/
structure RecentError where
  id : String
  type : String
  url : String
  error : Option String
  whenMs : Nat
deriving Repr, DecidableEq

/-- The in-memory state of a `QueueManager` instance: the `queue` array and
the `running` / `completed` / `failed` sets. -/
structure QM where
  queue : List CrawlTask
  running : List String
  completed : List String
  failed : List String
deriving Repr, DecidableEq

/-- The `chrome.storage.local` records owned by the queue manager:
`crawlQueue`, `queueStats` and `recentErrors`. -/
structure QStorage where
  crawlQueue : List CrawlTask
  statsRunning : List String
  statsCompleted : List String
  statsFailed : List String
  recentErrors : List RecentError
deriving Repr, DecidableEq

/-- `ConcurrencyConfig` from queueManager.ts. -/
structure ConcurrencyConfig where
  maxConcurrentTasks : Nat
  maxConcurrentGhostTabs : Nat
  taskTimeoutMs : Nat
  retryDelayMs : Nat
  maxRetries : Nat
deriving Repr, DecidableEq

/-- `defaultConcurrencyConfig` from queueManager.ts. -/
def defaultConcurrencyConfig : ConcurrencyConfig :=
  { maxConcurrentTasks := 4
    maxConcurrentGhostTabs := 2
    taskTimeoutMs := 30000
    retryDelayMs := 1000
    maxRetries := 3 }

/-- `QueueManager.saveQueue`: writes the in-memory queue and stat sets to
storage (the `recentErrors` record is written elsewhere and untouched). -/
def saveQueue (m : QM) (s : QStorage) : QStorage :=
  { s with
    crawlQueue := m.queue
    statsRunning := m.running
    statsCompleted := m.completed
    statsFailed := m.failed }

/-- `QueueManager.loadQueue`: rebuilds the in-memory state of a freshly
constructed manager from storage. -/
def loadQueue (s : QStorage) : QM :=
  { queue := s.crawlQueue
    running := s.statsRunning
    completed := s.statsCompleted
    failed := s.statsFailed }

/-- Combined queue state: in-memory fields plus the storage records. -/
structure QState where
  mem : QM
  sto : QStorage
deriving Repr, DecidableEq

/-- Persist after a mutating operation (`await this.saveQueue()`). -/
def persist (st : QState) : QState :=
  { st with sto := saveQueue st.mem st.sto }

/-- The `crawlTask` object literal built by `QueueManager.addTask`:
the spread of the spec plus the derived id, `retryCount: 0` and
`createdAt: Date.now()`. -/
def newCrawlTask (spec : TaskSpec) (now : Nat) : CrawlTask :=
  { id := generateTaskId spec.type spec.url now
    type := spec.type
    url := spec.url
    courseId := spec.courseId
    priority := spec.priority
    retryCount := 0
    maxRetries := spec.maxRetries
    createdAt := now
    scheduledFor := spec.scheduledFor }

/-- `QueueManager.addTask` at clock value `now`.  Returns the new state and
the derived task id. -/
def addTask (st : QState) (spec : TaskSpec) (now : Nat) : QState × String :=
  let id := generateTaskId spec.type spec.url now
  let crawlTask := newCrawlTask spec now
  let mem := st.mem
  let mem' :=
    match mem.queue.findIdx? (fun t => t.id == id) with
    | some i =>
        if crawlTask.priority > (mem.queue.getD i crawlTask).priority then
          { mem with queue := mem.queue.set i crawlTask }
        else
          mem
    | none => { mem with queue := mem.queue ++ [crawlTask] }
  (persist { st with mem := mem' }, id)

/-- The queue-array effect of `QueueManager.removeTask`: splice the first
entry with the given id (no change when absent). -/
def removeMem (m : QM) (id : String) : QM :=
  match m.queue.findIdx? (fun t => t.id == id) with
  | some i => { m with queue := m.queue.eraseIdx i }
  | none => m

/-- `QueueManager.removeTask`: splice the first queue entry with the given
id and persist; returns whether an entry was found. -/
def removeTask (st : QState) (id : String) : QState × Bool :=
  if (st.mem.queue.findIdx? (fun t => t.id == id)).isSome then
    (persist { st with mem := removeMem st.mem id }, true)
  else
    (st, false)

/-- JavaScript `Set.delete`: remove every occurrence (the list never holds
duplicates when built with `addSet`). -/
def delSet (s : List String) (x : String) : List String :=
  s.filter (fun y => y ≠ x)

/-- Update every queue entry carrying the given id (the queue entry and the
task reference held by `executeTask` are the same mutable object in the
source, so in-place field mutation is an update of the queue entry). -/
def updateTask (q : List CrawlTask) (id : String) (f : CrawlTask → CrawlTask) : List CrawlTask :=
  q.map (fun t => if t.id == id then f t else t)

/-- The head of `QueueManager.executeTask`, up to the first `await`:
`this.running.add(task.id); task.lastAttempt = Date.now()`.  No persist
happens until the task settles. -/
def execStart (st : QState) (id : String) (now : Nat) : QState :=
  { st with mem :=
      { st.mem with
        running := addSet st.mem.running id
        queue := updateTask st.mem.queue id (fun t => { t with lastAttempt := some now }) } }

/-- The field mutations at the top of `executeTask`'s catch block:
`task.error = errorMessage; task.retryCount++`. -/
def failUpdate (msg : String) (t : CrawlTask) : CrawlTask :=
  { t with error := some msg, retryCount := t.retryCount + 1 }

/-- The tail of `QueueManager.executeTask` once the fetch/parse/store work
settles.  `outcome = none` is the success path; `outcome = some msg` is the
catch block with error message `msg`.  `delay` stands for the jittered
`calculateRetryDelay(task.retryCount)` value actually drawn. -/
def execFinish (cfg : ConcurrencyConfig) (st : QState) (t : CrawlTask)
    (outcome : Option String) (now : Nat) (delay : Nat) : QState :=
  match outcome with
  | none =>
      let m1 :=
        { st.mem with
          completed := addSet st.mem.completed t.id
          running := delSet st.mem.running t.id }
      persist (removeTask { st with mem := m1 } t.id).1
  | some msg =>
      if cfg.maxRetries ≤ t.retryCount + 1 then
        let m1 :=
          { st.mem with
            queue := updateTask st.mem.queue t.id (failUpdate msg)
            failed := addSet st.mem.failed t.id
            running := delSet st.mem.running t.id }
        let st1 := (removeTask { st with mem := m1 } t.id).1
        let err : RecentError :=
          { id := t.id, type := t.type, url := t.url, error := some msg, whenMs := now }
        persist { st1 with sto := { st1.sto with recentErrors := (err :: st1.sto.recentErrors).take 50 } }
      else
        let m1 :=
          { st.mem with
            queue := updateTask st.mem.queue t.id
              (fun u => { failUpdate msg u with scheduledFor := now + delay })
            running := delSet st.mem.running t.id }
        persist { st with mem := m1 }

/-- The dispatch guard in `QueueManager.processQueue`:
`task.scheduledFor <= Date.now() && !this.running.has(task.id)`. -/
def eligible (m : QM) (t : CrawlTask) (now : Nat) : Bool :=
  decide (t.scheduledFor ≤ now) && !(m.running.contains t.id)

/-- `QueueManager.clearQueue`. -/
def clearQueue (st : QState) : QState :=
  persist { st with mem := { queue := [], running := [], completed := [], failed := [] } }

/-- `QueueManager.calculateRetryDelay`, over exact rationals: JavaScript
doubles are modelled by ℚ (all delay values reached from the shipped
configuration are exactly representable; the literal `0.3` is read as
3/10).  `rand` is the `Math.random()` draw, in `[0, 1)`. -/
def calculateRetryDelay (retryDelayMs : ℚ) (retryCount : Nat) (rand : ℚ) : ℚ :=
  let exponentialDelay := retryDelayMs * 2 ^ ((retryCount : ℤ) - 1)
  let jitter := rand * (3 / 10) * exponentialDelay
  min (exponentialDelay + jitter) 30000

/-- The state of a freshly constructed `QueueManager` over empty storage
(the module-level singleton starts this way). -/
def Qinit : QState :=
  { mem := { queue := [], running := [], completed := [], failed := [] }
    sto := { crawlQueue := [], statsRunning := [], statsCompleted := []
             statsFailed := [], recentErrors := [] } }

/-- One observable transition of the queue manager.  `add` and `clear` are
the public mutators used by callers; `start`/`finish` are the two halves of
`executeTask` as dispatched by `processQueue` (whose guard supplies the
`eligible` and capacity hypotheses, and which only dispatches queue
entries); `finish` only happens for a task previously started, hence
in-flight; `restart` models a service-worker restart rebuilding memory from
storage via the constructor's `loadQueue`. -/
inductive QStep (cfg : ConcurrencyConfig) : QState → QState → Prop
  | add (st : QState) (spec : TaskSpec) (now : Nat) :
      QStep cfg st (addTask st spec now).1
  | start (st : QState) (t : CrawlTask) (now : Nat)
      (ht : t ∈ st.mem.queue) (helig : eligible st.mem t now = true)
      (hcap : st.mem.running.length < cfg.maxConcurrentTasks) :
      QStep cfg st (execStart st t.id now)
  | finish (st : QState) (t : CrawlTask) (outcome : Option String) (now delay : Nat)
      (ht : t ∈ st.mem.queue) (hr : t.id ∈ st.mem.running) :
      QStep cfg st (execFinish cfg st t outcome now delay)
  | clear (st : QState) : QStep cfg st (clearQueue st)
  | restart (st : QState) : QStep cfg st { mem := loadQueue st.sto, sto := st.sto }

/-- Queue states reachable from the initial state. -/
inductive QReach (cfg : ConcurrencyConfig) : QState → Prop
  | init : QReach cfg Qinit
  | step {st st' : QState} : QReach cfg st → QStep cfg st st' → QReach cfg st'

/-! ## incrementalSync.ts: content normalization

The regex passes of `IncrementalSync.normalizeContent` are embedded as
left-to-right scanners over `List Char`, each reproducing the global
leftmost-match/continue-after-match discipline of JavaScript
`String.prototype.replace` with a `g` regex.  Every pass is an instance of
one generic scanner `scan`, driven by a per-regex `step` function that
tries the pattern at the current position and yields the replacement and
the remainder after the match.  Recursion is structural on an explicit
fuel (the input length bounds the number of scan positions), keeping every
definition kernel-computable. -/

/-- Test a character predicate at index `i`; false past the end.  Used so
that matchers short-circuit lazily, mirroring how a regex engine fails. -/
def testAt (p : Char → Bool) (l : List Char) (i : Nat) : Bool :=
  match l[i]? with
  | some c => p c
  | none => false

/-- The whitespace class `\s` of the source regexes, restricted to the
ASCII range (the crawled content in scope is ASCII). -/
def jsWs (c : Char) : Bool :=
  c == ' ' || c == '\t' || c == '\n' || c == '\r' || c == Char.ofNat 11 || c == Char.ofNat 12

/-- Generic global-replace scanner: at each position try `step`; on a match
emit the replacement and resume after the consumed text, otherwise emit the
current character and advance by one. -/
def scanGo (step : List Char → Option (List Char × List Char)) :
    Nat → List Char → List Char
  | _, [] => []
  | 0, l => l
  | f + 1, c :: cs =>
      match step (c :: cs) with
      | some (repl, rest) => repl ++ scanGo step f rest
      | none => c :: scanGo step f cs

/-- Run the scanner with enough fuel for the whole input. -/
def scan (step : List Char → Option (List Char × List Char)) (l : List Char) : List Char :=
  scanGo step l.length l

/-- The fixed-width pattern `\d{4}-\d{2}-\d{2}T\d{2}:\d{2}:\d{2}` tested at
the head of the list. -/
def isIsoAt (l : List Char) : Bool :=
  testAt Char.isDigit l 0 && testAt Char.isDigit l 1 &&
  testAt Char.isDigit l 2 && testAt Char.isDigit l 3 &&
  testAt (fun c => c == '-') l 4 &&
  testAt Char.isDigit l 5 && testAt Char.isDigit l 6 &&
  testAt (fun c => c == '-') l 7 &&
  testAt Char.isDigit l 8 && testAt Char.isDigit l 9 &&
  testAt (fun c => c == 'T') l 10 &&
  testAt Char.isDigit l 11 && testAt Char.isDigit l 12 &&
  testAt (fun c => c == ':') l 13 &&
  testAt Char.isDigit l 14 && testAt Char.isDigit l 15 &&
  testAt (fun c => c == ':') l 16 &&
  testAt Char.isDigit l 17 && testAt Char.isDigit l 18

/-- Replacement text `'TIMESTAMP'`. -/
def tsRepl : List Char := "TIMESTAMP".data

/-- Pass 1 step: `/\d{4}-\d{2}-\d{2}T\d{2}:\d{2}:\d{2}/` at the head (19
characters consumed on a match). -/
def isoStep (l : List Char) : Option (List Char × List Char) :=
  if isIsoAt l then some (tsRepl, l.drop 19) else none

/-- Pass 1: `.replace(/\d{4}-\d{2}-\d{2}T\d{2}:\d{2}:\d{2}/g, 'TIMESTAMP')`. -/
def isoScan : List Char → List Char :=
  scan isoStep

/-- Pass 2 step: `/\d{13,}/` at the head — a greedy maximal digit run of
length at least 13. -/
def digitsStep (l : List Char) : Option (List Char × List Char) :=
  if 13 ≤ (l.takeWhile Char.isDigit).length then
    some (tsRepl, l.dropWhile Char.isDigit)
  else none

/-- Pass 2: `.replace(/\d{13,}/g, 'TIMESTAMP')`. -/
def digitsScan : List Char → List Char :=
  scan digitsStep

/-- ASCII lower-casing, giving the case-insensitive (`i` flag) literal
matching of the token regexes. -/
def lowerAscii (c : Char) : Char :=
  if 65 ≤ c.toNat && c.toNat ≤ 90 then Char.ofNat (c.toNat + 32) else c

/-- Case-insensitively match a lowercase literal at the head; returns the
remainder after the literal. -/
def matchCI : List Char → List Char → Option (List Char)
  | [], l => some l
  | _ :: _, [] => none
  | p :: ps, c :: cs => if lowerAscii c == p then matchCI ps cs else none

/-- The character class `[^&\s"]` of the token regexes. -/
def tokenChar (c : Char) : Bool :=
  !(c == '&' || jsWs c || c == '"')

/-- Try `word[_-]idpart[^&\s"]*` (with the `i` flag) at the head of the
list; returns the remainder after the (greedy) match. -/
def tokenMatch (word idpart : List Char) (l : List Char) : Option (List Char) :=
  match matchCI word l with
  | none => none
  | some r1 =>
      match r1 with
      | [] => none
      | d :: r2 =>
          if d == '_' || d == '-' then
            match matchCI idpart r2 with
            | none => none
            | some r3 => some (r3.dropWhile tokenChar)
          else none

/-- Steps for passes 3-5, the three volatile-token regexes
(`session[_-]id…`, `csrf[_-]token…`, `authenticity[_-]token…`). -/
def tokenStep (word idpart repl : List Char) (l : List Char) :
    Option (List Char × List Char) :=
  (tokenMatch word idpart l).map (fun rest => (repl, rest))

/-- One shared scanner for passes 3-5. -/
def tokenScan (word idpart repl : List Char) : List Char → List Char :=
  scan (tokenStep word idpart repl)

/-- Digit-run detector for pass 6: does the list contain ten consecutive
digits? -/
def hasDigitRun10 : List Char → Bool
  | [] => false
  | c :: cs => (10 ≤ ((c :: cs).takeWhile Char.isDigit).length) || hasDigitRun10 cs

/-- Try `id="[^"]*\d{10,}[^"]*"` at the head of the list: the literal
`id="`, then a quote-free body containing a run of at least ten digits,
then the closing quote.  Returns the remainder after the closing quote. -/
def idMatch (l : List Char) : Option (List Char) :=
  if testAt (fun c => c == 'i') l 0 && testAt (fun c => c == 'd') l 1 &&
      testAt (fun c => c == '=') l 2 && testAt (fun c => c == '"') l 3 then
    match (l.drop 4).dropWhile (fun c => !(c == '"')) with
    | [] => none
    | _ :: rest =>
        if hasDigitRun10 ((l.drop 4).takeWhile (fun c => !(c == '"'))) then some rest else none
  else
    none

/-- Replacement text `'id="DYNAMIC_ID"'`. -/
def idRepl : List Char := "id=\"DYNAMIC_ID\"".data

/-- Pass 6 step. -/
def idStep (l : List Char) : Option (List Char × List Char) :=
  (idMatch l).map (fun rest => (idRepl, rest))

/-- Pass 6: `.replace(/id="[^"]*\d{10,}[^"]*"/g, 'id="DYNAMIC_ID"')`. -/
def idScan : List Char → List Char :=
  scan idStep

/-- Pass 7 step: `/\s+/` at the head — a maximal whitespace run, replaced
by one space. -/
def wsStep (l : List Char) : Option (List Char × List Char) :=
  match l with
  | [] => none
  | c :: cs => if jsWs c then some ([' '], cs.dropWhile jsWs) else none

/-- Pass 7: `.replace(/\s+/g, ' ')`. -/
def wsScan : List Char → List Char :=
  scan wsStep

/-- Pass 8: `.trim()` (over the same ASCII whitespace class). -/
def jsTrim (l : List Char) : List Char :=
  ((l.dropWhile jsWs).reverse.dropWhile jsWs).reverse

/-- `IncrementalSync.normalizeContent`: the eight passes in source order. -/
def normalizeContent (s : String) : String :=
  String.mk (jsTrim (wsScan (idScan
    (tokenScan "authenticity".data "token".data "AUTH_TOKEN".data
      (tokenScan "csrf".data "token".data "CSRF_TOKEN".data
        (tokenScan "session".data "id".data "SESSION_ID".data
          (digitsScan (isoScan s.data))))))))

/-! ## incrementalSync.ts: cache model and sync -/

/-- `CacheEntry` from incrementalSync.ts (timestamps are JavaScript
millisecond clock values, as `Int`; the `metadata` field, never read by the
sync logic, is omitted). -/
structure CacheEntry where
  url : String
  etag : Option String := none
  lastModified : Option String := none
  contentHash : String
  lastChecked : Int
  lastUpdated : Int
  hitCount : Nat
deriving Repr, DecidableEq

/-- `ChangeSignal` from incrementalSync.ts (`metadata` omitted). -/
structure ChangeSignal where
  url : String
  changeType : String
  detectedAt : Int
  previousHash : Option String
  currentHash : Option String
deriving Repr, DecidableEq

/-- `SyncResult` from incrementalSync.ts, without the wall-clock `timing`
block (pure elapsed-time measurement, no logic depends on it). -/
structure SyncResult where
  url : String
  changed : Bool
  cached : Bool
  etag : Option String := none
  lastModified : Option String := none
  contentHash : String
deriving Repr, DecidableEq

/-- `IncrementalSyncConfig` from incrementalSync.ts. -/
structure IncrementalSyncConfig where
  enableLogging : Bool
  maxCacheAge : Int
  maxCacheEntries : Nat
  enableETagCaching : Bool
  enableLastModified : Bool
  enableContentHashing : Bool
  forceRefreshInterval : Int
deriving Repr, DecidableEq

/-- The defaults applied in the `IncrementalSync` constructor. -/
def defaultSyncConfig : IncrementalSyncConfig :=
  { enableLogging := true
    maxCacheAge := 24 * 60 * 60 * 1000
    maxCacheEntries := 10000
    enableETagCaching := true
    enableLastModified := true
    enableContentHashing := true
    forceRefreshInterval := 7 * 24 * 60 * 60 * 1000 }

/-- In-memory state of an `IncrementalSync` instance: the `cache` map and
the per-URL `changeSignals` map, both as association lists in insertion
order. -/
structure SyncState where
  cache : List (String × CacheEntry)
  changeSignals : List (String × List ChangeSignal)
deriving Repr, DecidableEq

/-- `Map.get` on an association list. -/
def mapGet {α : Type} (m : List (String × α)) (k : String) : Option α :=
  (m.find? (fun p => p.1 == k)).map (fun p => p.2)

/-- `Map.set` on an association list: overwrite in place, or append. -/
def mapSet {α : Type} (m : List (String × α)) (k : String) (v : α) : List (String × α) :=
  if (m.find? (fun p => p.1 == k)).isSome then
    m.map (fun p => if p.1 == k then (k, v) else p)
  else
    m ++ [(k, v)]

/-- `IncrementalSync.getCacheEntry`. -/
def getCacheEntry (st : SyncState) (url : String) : Option CacheEntry :=
  mapGet st.cache url

/-- `IncrementalSync.shouldRefreshUrl`: note that both freshness checks
compare against the same `age = now - entry.lastUpdated`. -/
def shouldRefreshUrl (cfg : IncrementalSyncConfig) (entry : Option CacheEntry)
    (forceRefresh : Bool) (now : Int) : Bool :=
  if forceRefresh then true
  else
    match entry with
    | none => true
    | some e =>
        let age := now - e.lastUpdated
        if age > cfg.maxCacheAge then true
        else if age > cfg.forceRefreshInterval then true
        else false

/-- `should-refresh` as worded by the specification (for comparison with
the source-derived `shouldRefreshUrl`): the staleness check reads
`now − last-checked`, the hard ceiling reads `now − last-changed`
(`lastUpdated`). -/
def specShouldRefresh (cfg : IncrementalSyncConfig) (entry : Option CacheEntry)
    (forceRefresh : Bool) (now : Int) : Bool :=
  forceRefresh || entry.isNone ||
    (match entry with
     | none => false
     | some e => decide (now - e.lastChecked > cfg.maxCacheAge) ||
         decide (now - e.lastUpdated > cfg.forceRefreshInterval))

/-- What the network returned to `conditionalFetch`'s `fetch` call:
either a response (status, body, validator headers) or a thrown error. -/
inductive FetchOutcome where
  | response (status : Nat) (content : String) (etag lastModified : Option String)
  | thrown
deriving Repr, DecidableEq

/-- The result object of `IncrementalSync.conditionalFetch`. -/
structure CFetch where
  content : String
  etag : Option String
  lastModified : Option String
  notModified : Bool
deriving Repr, DecidableEq

/-- `IncrementalSync.conditionalFetch`: a 304 reports not-modified carrying
the stored validators; a non-ok status throws (`none`); otherwise the body
and response validators are returned.  (Empty header strings are mapped to
`undefined` by the source's `|| undefined`, hence validators are `Option`
with no empty-string values.) -/
def conditionalFetch (entry : Option CacheEntry) (out : FetchOutcome) : Option CFetch :=
  match out with
  | .thrown => none
  | .response status content etag lastModified =>
      if status == 304 then
        some { content := ""
               etag := match entry with | some e => e.etag | none => none
               lastModified := match entry with | some e => e.lastModified | none => none
               notModified := true }
      else if 200 ≤ status && status ≤ 299 then
        some { content := content, etag := etag, lastModified := lastModified
               notModified := false }
      else
        none

/-- `IncrementalSync.generateContentHash`: an abstract total `digest`
function stands for the SHA-256 hex digest (the `catch` fallback for a
digest failure is unreachable for a total digest). -/
def generateContentHash (cfg : IncrementalSyncConfig) (digest : String → String)
    (content : String) (now : Int) : String :=
  if !cfg.enableContentHashing then "no-hash-" ++ toString now
  else digest (normalizeContent content)

/-- `IncrementalSync.createCacheEntry`. -/
def createCacheEntry (url : String) (fr : CFetch) (contentHash : String) (now : Int) :
    CacheEntry :=
  { url := url
    etag := fr.etag
    lastModified := fr.lastModified
    contentHash := contentHash
    lastChecked := now
    lastUpdated := now
    hitCount := 0 }

/-- `IncrementalSync.detectChanges`. -/
def detectChanges (oldEntry : Option CacheEntry) (newEntry : CacheEntry) : Bool :=
  match oldEntry with
  | none => true
  | some o =>
      if o.contentHash ≠ newEntry.contentHash then true
      else if o.etag.isSome && newEntry.etag.isSome && o.etag ≠ newEntry.etag then true
      else if o.lastModified.isSome && newEntry.lastModified.isSome &&
          o.lastModified ≠ newEntry.lastModified then true
      else false

/-- `IncrementalSync.recordChangeSignal`: append, keep the last 100. -/
def recordChangeSignal (st : SyncState) (url : String) (oldEntry : Option CacheEntry)
    (newEntry : CacheEntry) (now : Int) : SyncState :=
  let signal : ChangeSignal :=
    { url := url
      changeType := match oldEntry with | some _ => "modified" | none => "added"
      detectedAt := now
      previousHash := (oldEntry.map (fun e => e.contentHash))
      currentHash := some newEntry.contentHash }
  let signals := (mapGet st.changeSignals url).getD [] ++ [signal]
  let signals := if 100 < signals.length then signals.drop (signals.length - 100) else signals
  { st with changeSignals := mapSet st.changeSignals url signals }

/-- `IncrementalSync.cleanupCache`: evict least-recently-checked entries
down to `maxCacheEntries - 1000`. -/
def cleanupCache (cfg : IncrementalSyncConfig) (cache : List (String × CacheEntry)) :
    List (String × CacheEntry) :=
  let sorted := cache.mergeSort (fun a b => a.2.lastChecked ≤ b.2.lastChecked)
  let toRemove := sorted.take (cache.length - cfg.maxCacheEntries + 1000)
  cache.filter (fun p => !(toRemove.map (fun q => q.1)).contains p.1)

/-- `IncrementalSync.updateCacheEntry` (set, then evict when over the
ceiling; the unconditional `saveCache` is a storage write of this same
state). -/
def updateCacheEntry (cfg : IncrementalSyncConfig) (st : SyncState) (url : String)
    (entry : CacheEntry) : SyncState :=
  if cfg.maxCacheEntries < (mapSet st.cache url entry).length then
    { st with cache := cleanupCache cfg (mapSet st.cache url entry) }
  else
    { st with cache := mapSet st.cache url entry }

/-- Steps 3-6 of `IncrementalSync.syncUrl` (full-content processing): hash
the normalized body, build the new cache entry, detect changes against the
prior entry, store, and append a change signal when changed. -/
def syncFull (cfg : IncrementalSyncConfig) (digest : String → String) (st : SyncState)
    (url : String) (fr : CFetch) (now : Int) : SyncState × SyncResult :=
  ( (if detectChanges (getCacheEntry st url)
        (createCacheEntry url fr (generateContentHash cfg digest fr.content now) now) then
       recordChangeSignal
         (updateCacheEntry cfg st url
           (createCacheEntry url fr (generateContentHash cfg digest fr.content now) now))
         url (getCacheEntry st url)
         (createCacheEntry url fr (generateContentHash cfg digest fr.content now) now) now
     else
       updateCacheEntry cfg st url
         (createCacheEntry url fr (generateContentHash cfg digest fr.content now) now))
  , { url := url
      changed := detectChanges (getCacheEntry st url)
        (createCacheEntry url fr (generateContentHash cfg digest fr.content now) now)
      cached := false
      etag := fr.etag
      lastModified := fr.lastModified
      contentHash := generateContentHash cfg digest fr.content now } )

/-- `IncrementalSync.syncUrl`, with the network outcome and the current
clock passed explicitly.  The try/catch around the body returns the
error-shaped `SyncResult` when the conditional fetch throws; no state is
mutated before the fetch on that path. -/
def syncUrl (cfg : IncrementalSyncConfig) (digest : String → String) (st : SyncState)
    (url : String) (forceRefresh : Bool) (out : FetchOutcome) (now : Int) :
    SyncState × SyncResult :=
  match getCacheEntry st url,
      shouldRefreshUrl cfg (getCacheEntry st url) forceRefresh now with
  | some e, false =>
      ( updateCacheEntry cfg st url { e with hitCount := e.hitCount + 1, lastChecked := now }
      , { url := url
          changed := false
          cached := true
          etag := e.etag
          lastModified := e.lastModified
          contentHash := e.contentHash } )
  | _, _ =>
      match conditionalFetch (getCacheEntry st url) out with
      | none =>
          ( st
          , { url := url, changed := false, cached := false, contentHash := "" } )
      | some fr =>
          match getCacheEntry st url, fr.notModified with
          | some e, true =>
              ( updateCacheEntry cfg st url { e with lastChecked := now, hitCount := e.hitCount + 1 }
              , { url := url
                  changed := false
                  cached := true
                  etag := e.etag
                  lastModified := e.lastModified
                  contentHash := e.contentHash } )
          | _, _ => syncFull cfg digest st url fr now

/-! ## scheduler.ts -/

/-- `CrawlSession` from scheduler.ts; `status` keeps the literal strings
`running` / `completed` / `failed` / `cancelled`. -/
structure CrawlSession where
  id : String
  startTime : Nat
  endTime : Option Nat := none
  status : String
  tasksScheduled : Nat
  tasksCompleted : Nat
  tasksFailed : Nat
  error : Option String := none
deriving Repr, DecidableEq

/-- The scheduler's state: its `currentSession` and `isRunning` fields, the
persisted `crawlSessions` history, plus the queue manager it drives. -/
structure SchedState where
  currentSession : Option CrawlSession
  isRunning : Bool
  history : List CrawlSession
  queue : QState
deriving Repr, DecidableEq

/-- `Scheduler.endCrawlSession`: stamp status and end time, clear the
running flag, push the session onto the bounded history (last ten kept),
clear `currentSession`.  No-op when no session is active. -/
def endCrawlSession (st : SchedState) (status : String) (error : Option String)
    (now : Nat) : SchedState :=
  match st.currentSession with
  | none => st
  | some s =>
      let s2 :=
        { s with
          endTime := some now
          status := status
          error := (match error with | some e => some e | none => s.error) }
      let sessions := st.history ++ [s2]
      let sessions := if 10 < sessions.length then sessions.drop (sessions.length - 10)
                      else sessions
      { st with currentSession := none, isRunning := false, history := sessions }

/-- The guard at the top of `Scheduler.startCrawlSession`, executed
synchronously before the first `await`: reject when already running,
otherwise set `isRunning` immediately. -/
def startGuard (st : SchedState) : SchedState × Bool :=
  if st.isRunning then (st, false)
  else ({ st with isRunning := true }, true)

/-- `Scheduler.scheduleInitialTasks` given the configured hosts: throws
(`none`) when no hosts are configured; otherwise seeds the dashboard and
course-list tasks through `QueueManager.addTask` and counts them. -/
def scheduleInitialTasks (st : SchedState) (hosts : List String) (now : Nat) :
    Option SchedState :=
  match st.currentSession with
  | none => some st
  | some s =>
      match hosts with
      | [] => none
      | primaryHost :: _ =>
          let q1 := (addTask st.queue
            { type := "dashboard", url := primaryHost ++ "/dashboard"
              priority := 10, maxRetries := 3, scheduledFor := now } now).1
          let q2 := (addTask q1
            { type := "course-list", url := primaryHost ++ "/courses"
              priority := 9, maxRetries := 3, scheduledFor := now + 1000 } now).1
          some { st with
                 queue := q2
                 currentSession := some { s with tasksScheduled := s.tasksScheduled + 2 } }

/-- The body of `Scheduler.startCrawlSession` after the guard has been set
(everything from the auth probe on, including the catch block that resets
the flag and ends a created session as `failed`).  `authOk` is the outcome
of the external auth probe; monitoring is modelled as separate steps. -/
def startBody (st : SchedState) (authOk : Bool) (hosts : List String) (now : Nat) :
    SchedState × Except String String :=
  if !authOk then
    ({ st with isRunning := false }, Except.error "User not authenticated")
  else
    let sessionId := "crawl_" ++ toString now
    let session : CrawlSession :=
      { id := sessionId, startTime := now, status := "running"
        tasksScheduled := 0, tasksCompleted := 0, tasksFailed := 0 }
    let st1 := { st with currentSession := some session }
    match scheduleInitialTasks st1 hosts now with
    | some st2 => (st2, Except.ok sessionId)
    | none =>
        let st2 := { st1 with isRunning := false }
        (endCrawlSession st2 "failed" (some "No Canvas hosts configured") now
        , Except.error "No Canvas hosts configured")

/-- `Scheduler.startCrawlSession` as one call: guard, then body. -/
def startCrawlSession (st : SchedState) (authOk : Bool) (hosts : List String) (now : Nat) :
    SchedState × Except String String :=
  let (st1, proceed) := startGuard st
  if proceed then startBody st1 authOk hosts now
  else (st1, Except.error "Crawl session already running")

/-- One observable transition of the scheduler.  `guard`/`body` are the two
halves of `startCrawlSession` (`body` follows a successful `guard`, hence
its hypotheses); `monitorComplete` and `monitorTimeout` are the two
terminal transitions of `monitorCrawlProgress`; `cancel` is
`Scheduler.cancelCrawl`; `queueStep` lets the queue evolve underneath. -/
inductive SStep : SchedState → SchedState → Prop
  | guard (st : SchedState) : SStep st (startGuard st).1
  | body (st : SchedState) (authOk : Bool) (hosts : List String) (now : Nat)
      (hrun : st.isRunning = true) (hcur : st.currentSession = none) :
      SStep st (startBody st authOk hosts now).1
  | monitorComplete (st : SchedState) (now : Nat)
      (hrun : st.isRunning = true)
      (hstats : st.queue.mem.queue.length = 0 ∧ st.queue.mem.running.length = 0) :
      SStep st (endCrawlSession st "completed" none now)
  | monitorTimeout (st : SchedState) (now : Nat) (hrun : st.isRunning = true) :
      SStep st (endCrawlSession st "cancelled" (some "Session timed out") now)
  | cancel (st : SchedState) (now : Nat) :
      SStep st (endCrawlSession st "cancelled" (some "Cancelled by user") now)
  | queueStep (st : SchedState) (q : QState) (cfg : ConcurrencyConfig)
      (hq : QStep cfg st.queue q) :
      SStep st { st with queue := q }

/-- Initial scheduler state: module-scope singleton over an empty queue
and empty history. -/
def SInit : SchedState :=
  { currentSession := none, isRunning := false, history := [], queue := Qinit }

/-- Scheduler states reachable from the initial state. -/
inductive SReach : SchedState → Prop
  | init : SReach SInit
  | step {st st' : SchedState} : SReach st → SStep st st' → SReach st'

/-- The number of sessions recorded as `running`, counting the active
session and the persisted history. -/
def runningSessions (st : SchedState) : Nat :=
  (match st.currentSession with
   | some s => if s.status = "running" then 1 else 0
   | none => 0) +
  (st.history.filter (fun s => s.status == "running")).length

/-! ## Queue invariants -/

/-- The ids of the queued tasks, in queue order. -/
def queueIds (m : QM) : List String :=
  m.queue.map (fun t => t.id)

/-- Structural invariant of one in-memory queue image: every in-flight id
is still present in the queue, queue ids are pairwise distinct, and no
queued task has exceeded the configured retry bound. -/
structure QMInv (cfg : ConcurrencyConfig) (m : QM) : Prop where
  run_sub : ∀ id ∈ m.running, id ∈ queueIds m
  nodup : (queueIds m).Nodup
  rc_le : ∀ t ∈ m.queue, t.retryCount ≤ cfg.maxRetries

/-- Invariant of the combined state: it holds of the in-memory image and of
the image a restart would rebuild from storage. -/
def QInv (cfg : ConcurrencyConfig) (st : QState) : Prop :=
  QMInv cfg st.mem ∧ QMInv cfg (loadQueue st.sto)

lemma load_save (m : QM) (s : QStorage) : loadQueue (saveQueue m s) = m := rfl

lemma qinv_persist {cfg : ConcurrencyConfig} {st : QState} (h : QMInv cfg st.mem) :
    QInv cfg (persist st) := by
  refine ⟨h, ?_⟩
  show QMInv cfg (loadQueue (saveQueue st.mem st.sto))
  rw [load_save]
  exact h

lemma mem_addSet {s : List String} {x y : String} (h : y ∈ addSet s x) : y ∈ s ∨ y = x := by
  unfold addSet at h
  by_cases hx : x ∈ s
  · simp [hx] at h; exact Or.inl h
  · simp [hx] at h; tauto

lemma mem_delSet {s : List String} {x y : String} (h : y ∈ delSet s x) : y ∈ s ∧ y ≠ x := by
  unfold delSet at h
  simpa using List.mem_filter.1 h

lemma not_mem_delSet (s : List String) (x : String) : x ∉ delSet s x := by
  intro h
  exact (mem_delSet h).2 rfl

lemma map_updateTask (q : List CrawlTask) (id : String) (f : CrawlTask → CrawlTask)
    (g : CrawlTask → String) (hf : ∀ t, g (f t) = g t) :
    (updateTask q id f).map g = q.map g := by
  unfold updateTask
  rw [List.map_map]
  apply List.map_congr_left
  intro t _
  by_cases h : t.id = id <;> simp [h, hf]

lemma mem_updateTask {q : List CrawlTask} {id : String} {f : CrawlTask → CrawlTask} {u : CrawlTask}
    (hu : u ∈ updateTask q id f) : ∃ v ∈ q, (v.id = id ∧ u = f v) ∨ (v.id ≠ id ∧ u = v) := by
  unfold updateTask at hu
  rcases List.mem_map.1 hu with ⟨v, hv, he⟩
  refine ⟨v, hv, ?_⟩
  by_cases h : v.id = id
  · left
    refine ⟨h, ?_⟩
    simp [h] at he
    exact he.symm
  · right
    refine ⟨h, ?_⟩
    simp [h] at he
    exact he.symm

lemma mem_updateTask_of_mem {q : List CrawlTask} {id : String} {f : CrawlTask → CrawlTask}
    {v : CrawlTask} (hv : v ∈ q) : (if v.id = id then f v else v) ∈ updateTask q id f := by
  unfold updateTask
  by_cases h : v.id = id
  · simpa [h] using List.mem_map_of_mem (fun t => if (t.id == id) = true then f t else t) hv
  · simpa [h] using List.mem_map_of_mem (fun t => if (t.id == id) = true then f t else t) hv

lemma unique_by_id {q : List CrawlTask} (hnd : (q.map (fun t => t.id)).Nodup)
    {u v : CrawlTask} (hu : u ∈ q) (hv : v ∈ q) (he : u.id = v.id) : u = v := by
  exact List.inj_on_of_nodup_map hnd hu hv he

lemma map_eraseIdx' {α β : Type} (f : α → β) :
    ∀ (l : List α) (i : Nat), (l.eraseIdx i).map f = (l.map f).eraseIdx i
  | [], _ => by simp [List.eraseIdx]
  | _ :: _, 0 => by simp [List.eraseIdx]
  | a :: l, i + 1 => by
      simp only [List.eraseIdx, List.map_cons]
      rw [map_eraseIdx' f l i]

lemma mem_eraseIdx_of_ne {α : Type} {l : List α} {i : Nat} {a : α}
    (ha : a ∈ l) (h : ∀ hi : i < l.length, l.get ⟨i, hi⟩ ≠ a) : a ∈ l.eraseIdx i := by
  rcases List.mem_iff_getElem.1 ha with ⟨j, hj, he⟩
  by_cases hil : i < l.length
  · refine List.mem_eraseIdx_iff_getElem.2 ⟨j, hj, ?_, he⟩
    intro hji
    subst hji
    exact h hil (by simpa using he)
  · rw [List.eraseIdx_of_length_le (Nat.le_of_not_lt hil)]
    exact ha

lemma findIdx?_some_spec {α : Type} {p : α → Bool} {l : List α} {i : Nat}
    (h : l.findIdx? p = some i) : ∃ hi : i < l.length, p (l.get ⟨i, hi⟩) = true := by
  rcases List.findIdx?_eq_some_iff_findIdx_eq.1 h with ⟨hlen, hfi⟩
  refine ⟨hlen, ?_⟩
  have := @List.findIdx_getElem _ p l (by rw [hfi]; exact hlen)
  simpa [hfi] using this

lemma findIdx?_none_spec {α : Type} {p : α → Bool} {l : List α}
    (h : l.findIdx? p = none) : ∀ x ∈ l, p x = false :=
  List.findIdx?_eq_none_iff.1 h

lemma set_get_self {α : Type} :
    ∀ (l : List α) (i : Nat) (h : i < l.length), l.set i (l.get ⟨i, h⟩) = l
  | _ :: _, 0, _ => rfl
  | a :: l, i + 1, h => by
      simp only [List.set, List.get]
      rw [set_get_self l i (Nat.lt_of_succ_lt_succ h)]

/-- `addTask` preserves the invariant. -/
lemma qinv_addTask {cfg : ConcurrencyConfig} {st : QState} (h : QMInv cfg st.mem)
    (spec : TaskSpec) (now : Nat) : QInv cfg (addTask st spec now).1 := by
  apply qinv_persist
  show QMInv cfg _
  simp only [addTask]
  cases hf : st.mem.queue.findIdx? (fun t => t.id == generateTaskId spec.type spec.url now) with
  | some i =>
      rcases findIdx?_some_spec hf with ⟨hi, hp⟩
      have hid : (st.mem.queue.get ⟨i, hi⟩).id = generateTaskId spec.type spec.url now := by
        simpa using hp
      by_cases hpr :
          (newCrawlTask spec now).priority > (st.mem.queue.getD i (newCrawlTask spec now)).priority
      · simp only [if_pos hpr]
        have hids : (st.mem.queue.set i (newCrawlTask spec now)).map (fun t => t.id)
            = queueIds st.mem := by
          rw [List.map_set]
          show (queueIds st.mem).set i _ = queueIds st.mem
          have hlen : i < (queueIds st.mem).length := by
            simpa [queueIds] using hi
          have hget : (queueIds st.mem).get ⟨i, hlen⟩ = generateTaskId spec.type spec.url now := by
            simpa [queueIds, List.get_map] using hid
          have : (newCrawlTask spec now).id = (queueIds st.mem).get ⟨i, hlen⟩ := by
            rw [hget]; rfl
          rw [this, set_get_self]
        refine ⟨?_, ?_, ?_⟩
        · intro id hid'
          have := h.run_sub id hid'
          show id ∈ _
          simpa [queueIds, hids] using this
        · show ((st.mem.queue.set i _).map (fun t => t.id)).Nodup
          rw [hids]; exact h.nodup
        · intro t ht
          rcases List.mem_or_eq_of_mem_set ht with hmem | heq
          · exact h.rc_le t hmem
          · subst heq; exact Nat.zero_le _
      · simp only [if_neg hpr]
        exact h
  | none =>
      have hnone := findIdx?_none_spec hf
      have hnm : generateTaskId spec.type spec.url now ∉ queueIds st.mem := by
        intro hmem
        rcases List.mem_map.1 hmem with ⟨t, ht, he⟩
        have := hnone t ht
        rw [beq_eq_false_iff_ne] at this
        exact this he
      refine ⟨?_, ?_, ?_⟩
      · intro id hid'
        have := h.run_sub id hid'
        show id ∈ (st.mem.queue ++ [newCrawlTask spec now]).map (fun t => t.id)
        rw [List.map_append]
        exact List.mem_append_left _ this
      · show ((st.mem.queue ++ [newCrawlTask spec now]).map (fun t => t.id)).Nodup
        rw [List.map_append]
        simp only [List.map_cons, List.map_nil]
        rw [List.nodup_append]
        exact ⟨h.nodup, List.nodup_singleton _, by
          intro a ha hb
          simp only [List.mem_singleton] at hb
          subst hb
          exact hnm ha⟩
      · intro t ht
        rcases List.mem_append.1 ht with hmem | heq
        · exact h.rc_le t hmem
        · simp only [List.mem_singleton] at heq
          subst heq
          exact Nat.zero_le _

/-- `execStart` preserves the invariant (storage is untouched). -/
lemma qinv_execStart {cfg : ConcurrencyConfig} {st : QState} (h : QInv cfg st)
    {t : CrawlTask} (ht : t ∈ st.mem.queue) (now : Nat) :
    QInv cfg (execStart st t.id now) := by
  obtain ⟨hm, hs⟩ := h
  refine ⟨⟨?_, ?_, ?_⟩, hs⟩
  · intro id hid
    show id ∈ (updateTask st.mem.queue t.id
        (fun u => { u with lastAttempt := some now })).map (fun u => u.id)
    rw [map_updateTask st.mem.queue t.id (fun u => { u with lastAttempt := some now })
      (fun u => u.id) (fun u => rfl)]
    rcases mem_addSet hid with hold | heq
    · exact hm.run_sub id hold
    · subst heq
      exact List.mem_map_of_mem _ ht
  · show ((updateTask st.mem.queue t.id
        (fun u => { u with lastAttempt := some now })).map (fun u => u.id)).Nodup
    rw [map_updateTask st.mem.queue t.id (fun u => { u with lastAttempt := some now })
      (fun u => u.id) (fun u => rfl)]
    exact hm.nodup
  · intro u hu
    rcases mem_updateTask hu with ⟨v, hv, ⟨_, he⟩ | ⟨_, he⟩⟩
    · rw [he]
      exact hm.rc_le v hv
    · rw [he]
      exact hm.rc_le v hv

/-- `removeMem` preserves the invariant pieces, assuming the removed id is
no longer in-flight and the retry bound is only known for entries with a
different id (the erased entry is the unique one carrying `id`). -/
lemma qminv_removeMem {cfg : ConcurrencyConfig} {m : QM} {id : String}
    (hrun : ∀ x ∈ m.running, x ∈ queueIds m)
    (hnd : (queueIds m).Nodup)
    (hrc : ∀ t ∈ m.queue, t.id ≠ id → t.retryCount ≤ cfg.maxRetries)
    (hid : id ∉ m.running) :
    QMInv cfg (removeMem m id) := by
  unfold queueIds at hrun hnd
  unfold removeMem
  cases hf : m.queue.findIdx? (fun t => t.id == id) with
  | none =>
      refine ⟨hrun, hnd, fun t ht => hrc t ht ?_⟩
      have := findIdx?_none_spec hf t ht
      rw [beq_eq_false_iff_ne] at this
      exact this
  | some i =>
      rcases findIdx?_some_spec hf with ⟨hi, hp⟩
      have hgetid : (m.queue.get ⟨i, hi⟩).id = id := by simpa using hp
      refine ⟨?_, ?_, ?_⟩
      · intro x hx
        have hold := hrun x hx
        have hne : x ≠ id := fun he => hid (he ▸ hx)
        show x ∈ (m.queue.eraseIdx i).map (fun t => t.id)
        rw [map_eraseIdx']
        apply mem_eraseIdx_of_ne hold
        intro hlen
        have hmapget : (m.queue.map (fun t => t.id)).get ⟨i, hlen⟩ = id := by
          rw [List.get_map]
          exact hgetid
        rw [hmapget]
        exact fun he => hne he.symm
      · show ((m.queue.eraseIdx i).map (fun t => t.id)).Nodup
        rw [map_eraseIdx']
        exact (List.eraseIdx_sublist _ i).nodup hnd
      · intro t ht
        have hmem : t ∈ m.queue := (List.eraseIdx_sublist m.queue i).subset ht
        rcases List.mem_eraseIdx_iff_getElem.1 ht with ⟨j, hj, hji, hje⟩
        have hidsne : t.id ≠ id := by
          intro he
          apply hji
          have hjlen : j < (m.queue.map (fun t => t.id)).length := by simpa using hj
          have hilen : i < (m.queue.map (fun t => t.id)).length := by simpa using hi
          have hjv : (m.queue.map (fun t => t.id))[j] = id := by
            rw [List.getElem_map]
            rw [show m.queue[j] = t from hje]
            exact he
          have hiv : (m.queue.map (fun t => t.id))[i] = id := by
            rw [List.getElem_map]
            exact hgetid
          exact (List.Nodup.getElem_inj_iff hnd).1 (hjv.trans hiv.symm)
        exact hrc t hmem hidsne

lemma removeTask_fst_mem (st : QState) (id : String) :
    ((removeTask st id).1).mem = removeMem st.mem id := by
  unfold removeTask
  by_cases h : (st.mem.queue.findIdx? (fun t => t.id == id)).isSome
  · simp only [if_pos h]
    rfl
  · simp only [if_neg h]
    unfold removeMem
    cases hf : st.mem.queue.findIdx? (fun t => t.id == id) with
    | none => rfl
    | some i => rw [hf] at h; simp at h

/-- `execFinish` preserves the invariant, for a finishing task that is a
queue entry. -/
lemma qinv_execFinish {cfg : ConcurrencyConfig} {st : QState} (h : QInv cfg st)
    {t : CrawlTask} (ht : t ∈ st.mem.queue) (outcome : Option String) (now delay : Nat) :
    QInv cfg (execFinish cfg st t outcome now delay) := by
  obtain ⟨hm, _⟩ := h
  cases outcome with
  | none =>
      apply qinv_persist
      rw [removeTask_fst_mem]
      apply qminv_removeMem
      · intro x hx
        rcases mem_delSet hx with ⟨hold, _⟩
        exact hm.run_sub x hold
      · exact hm.nodup
      · exact fun u hu _ => hm.rc_le u hu
      · exact not_mem_delSet _ _
  | some msg =>
      by_cases hterm : cfg.maxRetries ≤ t.retryCount + 1
      · simp only [execFinish, if_pos hterm]
        apply qinv_persist
        show QMInv cfg ((removeTask _ t.id).1).mem
        rw [removeTask_fst_mem]
        apply qminv_removeMem
        · intro x hx
          rcases mem_delSet hx with ⟨hold, _⟩
          show x ∈ (updateTask st.mem.queue t.id (failUpdate msg)).map (fun u => u.id)
          rw [map_updateTask st.mem.queue t.id (failUpdate msg) (fun u => u.id) (fun u => rfl)]
          exact hm.run_sub x hold
        · show ((updateTask st.mem.queue t.id (failUpdate msg)).map (fun u => u.id)).Nodup
          rw [map_updateTask st.mem.queue t.id (failUpdate msg) (fun u => u.id) (fun u => rfl)]
          exact hm.nodup
        · intro u hu hune
          rcases mem_updateTask hu with ⟨v, hv, ⟨hvid, he⟩ | ⟨_, he⟩⟩
          · exfalso
            apply hune
            rw [he]
            exact hvid
          · rw [he]
            exact hm.rc_le v hv
        · exact not_mem_delSet _ _
      · simp only [execFinish, if_neg hterm]
        apply qinv_persist
        refine ⟨?_, ?_, ?_⟩
        · intro x hx
          rcases mem_delSet hx with ⟨hold, _⟩
          show x ∈ (updateTask st.mem.queue t.id
              (fun u => { failUpdate msg u with scheduledFor := now + delay })).map (fun u => u.id)
          rw [map_updateTask st.mem.queue t.id
            (fun u => { failUpdate msg u with scheduledFor := now + delay })
            (fun u => u.id) (fun u => rfl)]
          exact hm.run_sub x hold
        · show ((updateTask st.mem.queue t.id
              (fun u => { failUpdate msg u with scheduledFor := now + delay })).map
              (fun u => u.id)).Nodup
          rw [map_updateTask st.mem.queue t.id
            (fun u => { failUpdate msg u with scheduledFor := now + delay })
            (fun u => u.id) (fun u => rfl)]
          exact hm.nodup
        · intro u hu
          rcases mem_updateTask hu with ⟨v, hv, ⟨hvid, he⟩ | ⟨_, he⟩⟩
          · have hvt : v = t := unique_by_id hm.nodup hv ht hvid
            rw [he, hvt]
            show t.retryCount + 1 ≤ cfg.maxRetries
            omega
          · rw [he]
            exact hm.rc_le v hv

lemma qinv_clearQueue {cfg : ConcurrencyConfig} (st : QState) : QInv cfg (clearQueue st) := by
  apply qinv_persist
  exact ⟨fun id hid => by simp [clearQueue] at hid, by
    show (List.map _ []).Nodup
    simp, fun t ht => by simp [clearQueue] at ht⟩

lemma qinv_init (cfg : ConcurrencyConfig) : QInv cfg Qinit := by
  constructor <;>
    exact ⟨fun id hid => by simp [Qinit, loadQueue] at hid, by
      show (List.map _ []).Nodup
      simp, fun t ht => by simp [Qinit, loadQueue] at ht⟩

/-- Every step of the queue manager preserves the invariant. -/
lemma qinv_step {cfg : ConcurrencyConfig} {st st' : QState}
    (h : QInv cfg st) (hs : QStep cfg st st') : QInv cfg st' := by
  cases hs with
  | add spec now => exact qinv_addTask h.1 spec now
  | start t now ht helig hcap => exact qinv_execStart h ht now
  | finish t outcome now delay ht hr => exact qinv_execFinish h ht outcome now delay
  | clear => exact qinv_clearQueue st
  | restart => exact ⟨h.2, h.2⟩

/-- The queue invariant holds in every reachable state. -/
lemma qinv_reach {cfg : ConcurrencyConfig} {st : QState} (h : QReach cfg st) : QInv cfg st := by
  induction h with
  | init => exact qinv_init cfg
  | step _ hs ih => exact qinv_step ih hs

/-! ## Scheduler invariants -/

/-- No session persisted to history is ever recorded as running. -/
def SInv (st : SchedState) : Prop :=
  ∀ s ∈ st.history, s.status ≠ "running"

lemma mem_capDrop {α : Type} {x : α} {l : List α} {n : Nat}
    (hx : x ∈ (if n < l.length then l.drop (l.length - n) else l)) : x ∈ l := by
  split at hx
  · exact (List.drop_sublist _ _).subset hx
  · exact hx

lemma sinv_endCrawl {st : SchedState} (h : SInv st) {status : String}
    (error : Option String) (now : Nat) (hst : status ≠ "running") :
    SInv (endCrawlSession st status error now) := by
  unfold endCrawlSession
  cases hc : st.currentSession with
  | none => exact h
  | some s =>
      intro x hx
      dsimp only at hx
      have hx2 := mem_capDrop hx
      rcases List.mem_append.1 hx2 with hmem | heq
      · exact h x hmem
      · simp only [List.mem_singleton] at heq
        subst heq
        exact hst

lemma history_startGuard (st : SchedState) : ((startGuard st).1).history = st.history := by
  unfold startGuard
  by_cases h : st.isRunning <;> simp [h]

lemma history_scheduleInitialTasks {st st' : SchedState} {hosts : List String} {now : Nat}
    (h : scheduleInitialTasks st hosts now = some st') : st'.history = st.history := by
  unfold scheduleInitialTasks at h
  cases hc : st.currentSession with
  | none =>
      rw [hc] at h
      simp only [Option.some.injEq] at h
      rw [← h]
  | some s =>
      rw [hc] at h
      dsimp only at h
      cases hosts with
      | nil => simp at h
      | cons hd tl =>
          dsimp only at h
          simp only [Option.some.injEq] at h
          rw [← h]

lemma sinv_startBody {st : SchedState} (h : SInv st) (authOk : Bool) (hosts : List String)
    (now : Nat) : SInv ((startBody st authOk hosts now).1) := by
  unfold startBody
  by_cases ha : (!authOk) = true
  · rw [if_pos ha]
    exact h
  · rw [if_neg ha]
    dsimp only
    split
    · rename_i st2 hs2
      intro x hx
      rw [history_scheduleInitialTasks hs2] at hx
      exact h x hx
    · rename_i hs2
      apply sinv_endCrawl _ _ _ (by decide)
      intro x hx
      exact h x hx

lemma sinv_step {st st' : SchedState} (h : SInv st) (hs : SStep st st') : SInv st' := by
  cases hs with
  | guard => intro x hx; rw [history_startGuard] at hx; exact h x hx
  | body authOk hosts now hrun hcur => exact sinv_startBody h authOk hosts now
  | monitorComplete now hrun hstats => exact sinv_endCrawl h _ _ (by decide)
  | monitorTimeout now hrun => exact sinv_endCrawl h _ _ (by decide)
  | cancel now => exact sinv_endCrawl h _ _ (by decide)
  | queueStep q cfg hq => exact h

lemma sinv_reach {st : SchedState} (h : SReach st) : SInv st := by
  induction h with
  | init => intro x hx; simp [SInit] at hx
  | step _ hs ih => exact sinv_step ih hs

/-! ## Further queue helper lemmas -/

lemma mem_addSet_self (s : List String) (x : String) : x ∈ addSet s x := by
  unfold addSet
  by_cases h : x ∈ s
  · simpa [h] using h
  · simp [h]

lemma not_mem_removeMem {m : QM} {id : String} (hnd : (queueIds m).Nodup) :
    id ∉ (removeMem m id).queue.map (fun t => t.id) := by
  unfold queueIds at hnd
  unfold removeMem
  cases hf : m.queue.findIdx? (fun t => t.id == id) with
  | none =>
      intro hmem
      rcases List.mem_map.1 hmem with ⟨t, ht, he⟩
      have := findIdx?_none_spec hf t ht
      rw [beq_eq_false_iff_ne] at this
      exact this he
  | some i =>
      rcases findIdx?_some_spec hf with ⟨hi, hp⟩
      have hgetid : (m.queue.get ⟨i, hi⟩).id = id := by simpa using hp
      intro hmem
      rw [show ({ m with queue := m.queue.eraseIdx i } : QM).queue = m.queue.eraseIdx i from rfl,
        map_eraseIdx'] at hmem
      rcases List.mem_eraseIdx_iff_getElem.1 hmem with ⟨j, hj, hji, hje⟩
      apply hji
      have hilen : i < (m.queue.map (fun t => t.id)).length := by simpa using hi
      have h2 : (m.queue.map (fun t => t.id))[i] = id := by
        rw [List.getElem_map]
        exact hgetid
      exact (List.Nodup.getElem_inj_iff hnd).1 (hje.trans h2.symm)

lemma removeMem_running (m : QM) (id : String) : (removeMem m id).running = m.running := by
  unfold removeMem
  cases m.queue.findIdx? (fun t => t.id == id) <;> rfl

lemma removeMem_failed (m : QM) (id : String) : (removeMem m id).failed = m.failed := by
  unfold removeMem
  cases m.queue.findIdx? (fun t => t.id == id) <;> rfl

lemma removeTask_sto_recent (st : QState) (id : String) :
    ((removeTask st id).1).sto.recentErrors = st.sto.recentErrors := by
  unfold removeTask
  split <;> rfl

lemma contains_of_mem {l : List String} {x : String} (h : x ∈ l) : l.contains x = true := by
  simpa using h

/-! ## Claim theorems -/

set_option maxRecDepth 100000 in
/-- Claim C1 (code_bug evaluation).  The claim says the task id derived at
enqueue time is a deterministic function of (kind, URL) alone, so that a
second enqueue of the same (kind, URL) before execution leaves exactly one
queue entry with the maximum priority.  The code folds `Date.now()` into
`generateTaskId`, so the same (kind, URL) enqueued at clocks 1000 and 2000
yields two distinct ids and two coexisting queue entries with priorities 5
and 9 — the dedup branch of `addTask` never fires. -/
theorem C1_taskId_depends_on_clock :
    generateTaskId "dashboard" "https://canvas.test/dashboard" 1000 ≠
      generateTaskId "dashboard" "https://canvas.test/dashboard" 2000 ∧
    ((addTask (addTask Qinit
        { type := "dashboard", url := "https://canvas.test/dashboard"
          priority := 5, maxRetries := 3, scheduledFor := 0 } 1000).1
        { type := "dashboard", url := "https://canvas.test/dashboard"
          priority := 9, maxRetries := 3, scheduledFor := 0 } 2000).1.mem.queue.map
      (fun t => (t.id, t.priority)))
      = [("dashboard_1000_7xiuri", 5), ("dashboard_2000_7xiuri", 9)] := by
  constructor
  · decide
  · decide

/-- The concrete queue image used to refute claim C2: one task `t1`,
in-flight at save time. -/
def c2Mem : QM :=
  { queue := [{ id := "t1", type := "pages", url := "https://canvas.test/p"
                priority := 5, retryCount := 0, maxRetries := 3
                createdAt := 0, scheduledFor := 0 }]
    running := ["t1"]
    completed := []
    failed := [] }

/-- Claim C2 counterexample.  The claim says a task in-flight at save time
comes back from the save/load round trip in the queued (pending) state,
eligible to be dequeued again.  After the round trip the restored `running`
set still holds `t1`, and the dispatch guard rejects it at any later
clock. -/
theorem C2_counterexample :
    (loadQueue (saveQueue c2Mem Qinit.sto)).running = ["t1"] ∧
    eligible (loadQueue (saveQueue c2Mem Qinit.sto))
      { id := "t1", type := "pages", url := "https://canvas.test/p"
        priority := 5, retryCount := 0, maxRetries := 3
        createdAt := 0, scheduledFor := 0 } 1000000 = false := by
  constructor
  · rfl
  · decide

/-- Claim C2 (amended): the save/load round trip restores the in-memory
image exactly — same task list, same `running` / `completed` / `failed`
sets — so non-terminal tasks survive a restart, but a task in-flight at
save time stays marked in-flight and is **not** eligible for dispatch. -/
theorem C2_roundTrip_preserves_state :
    (∀ (m : QM) (s : QStorage), loadQueue (saveQueue m s) = m) ∧
    (∀ (m : QM) (s : QStorage) (t : CrawlTask) (now : Nat), t.id ∈ m.running →
      eligible (loadQueue (saveQueue m s)) t now = false) := by
  constructor
  · exact load_save
  · intro m s t now hmem
    rw [load_save]
    unfold eligible
    rw [contains_of_mem hmem]
    simp

/-- Witness for the hypothesis of `C2_roundTrip_preserves_state`. -/
theorem C2_roundTrip_witness :
    "t1" ∈ c2Mem.running ∧
    eligible (loadQueue (saveQueue c2Mem Qinit.sto))
      { id := "t1", type := "pages", url := "https://canvas.test/p"
        priority := 5, retryCount := 0, maxRetries := 3
        createdAt := 0, scheduledFor := 0 } 77 = false :=
  ⟨by decide, C2_roundTrip_preserves_state.2 c2Mem Qinit.sto
    { id := "t1", type := "pages", url := "https://canvas.test/p"
      priority := 5, retryCount := 0, maxRetries := 3
      createdAt := 0, scheduledFor := 0 } 77 (by decide)⟩

/-- The state used to refute claim C3: a queued, in-flight task whose own
`maxRetries` field is 1 and which has already failed once. -/
def c3State : QState :=
  { mem := { queue := [{ id := "b", type := "pages", url := "https://canvas.test/b"
                         priority := 5, retryCount := 1, maxRetries := 1
                         createdAt := 0, scheduledFor := 0 }]
             running := ["b"]
             completed := []
             failed := [] }
    sto := Qinit.sto }

set_option maxRecDepth 100000 in
/-- Claim C3 counterexample.  The claim reads the bound as "the task's max
attempts".  The code compares against the global `config.maxRetries` (3 by
default) and never reads the per-task `maxRetries` field: after a second
failure the task (own bound 1) has attempt count 2 > 1 yet remains queued,
is not in the failed set, and no recent-error entry is recorded. -/
theorem C3_counterexample :
    ((execFinish defaultConcurrencyConfig c3State
        { id := "b", type := "pages", url := "https://canvas.test/b"
          priority := 5, retryCount := 1, maxRetries := 1
          createdAt := 0, scheduledFor := 0 } (some "boom") 500 100).mem.queue.map
      (fun u => (u.id, u.retryCount, u.maxRetries)))
      = [("b", 2, 1)] ∧
    (execFinish defaultConcurrencyConfig c3State
        { id := "b", type := "pages", url := "https://canvas.test/b"
          priority := 5, retryCount := 1, maxRetries := 1
          createdAt := 0, scheduledFor := 0 } (some "boom") 500 100).mem.failed = [] ∧
    (execFinish defaultConcurrencyConfig c3State
        { id := "b", type := "pages", url := "https://canvas.test/b"
          priority := 5, retryCount := 1, maxRetries := 1
          createdAt := 0, scheduledFor := 0 } (some "boom") 500 100).sto.recentErrors = [] := by
  refine ⟨?_, ?_, ?_⟩ <;> decide

/-- Claim C3 (amended): the bound is the globally configured
`config.maxRetries` (the per-task field is ignored).  When a failure brings
the attempt count to that bound, the task is removed from the queue and
from the in-flight set, moved to the failed set, and a recent-error entry
is recorded at the head of a log capped at 50; and in every reachable
state, no queued task's attempt count exceeds the configured bound. -/
theorem C3_terminal_failure :
    (∀ (cfg : ConcurrencyConfig) (st : QState) (t : CrawlTask) (msg : String) (now delay : Nat),
      QReach cfg st → t ∈ st.mem.queue → cfg.maxRetries ≤ t.retryCount + 1 →
      (∀ u ∈ (execFinish cfg st t (some msg) now delay).mem.queue, u.id ≠ t.id) ∧
      (execFinish cfg st t (some msg) now delay).sto.recentErrors.head? =
        some { id := t.id, type := t.type, url := t.url, error := some msg, whenMs := now } ∧
      (execFinish cfg st t (some msg) now delay).sto.recentErrors.length ≤ 50 ∧
      t.id ∈ (execFinish cfg st t (some msg) now delay).mem.failed ∧
      t.id ∉ (execFinish cfg st t (some msg) now delay).mem.running) ∧
    (∀ (cfg : ConcurrencyConfig) (st : QState), QReach cfg st →
      ∀ u ∈ st.mem.queue, u.retryCount ≤ cfg.maxRetries) := by
  constructor
  · intro cfg st t msg now delay hreach ht hterm
    have hinv := qinv_reach hreach
    have hnd1 : ((updateTask st.mem.queue t.id (failUpdate msg)).map (fun u => u.id)).Nodup := by
      rw [map_updateTask st.mem.queue t.id (failUpdate msg) (fun u => u.id) (fun u => rfl)]
      exact hinv.1.nodup
    simp only [execFinish, if_pos hterm, persist, saveQueue]
    rw [removeTask_fst_mem, removeTask_sto_recent]
    refine ⟨?_, ?_, ?_, ?_, ?_⟩
    · intro u hu hue
      have humem : u.id ∈ (removeMem
          { st.mem with
            queue := updateTask st.mem.queue t.id (failUpdate msg)
            failed := addSet st.mem.failed t.id
            running := delSet st.mem.running t.id } t.id).queue.map (fun v => v.id) :=
        List.mem_map_of_mem _ hu
      rw [hue] at humem
      exact not_mem_removeMem (m := { st.mem with
          queue := updateTask st.mem.queue t.id (failUpdate msg)
          failed := addSet st.mem.failed t.id
          running := delSet st.mem.running t.id }) hnd1 humem
    · rfl
    · rw [List.length_take]
      omega
    · rw [removeMem_failed]
      exact mem_addSet_self _ _
    · rw [removeMem_running]
      exact not_mem_delSet _ _
  · intro cfg st hreach u hu
    exact (qinv_reach hreach).1.rc_le u hu

set_option maxRecDepth 100000 in
/-- Witness for `C3_terminal_failure`: one enqueued task under a
configuration with `maxRetries = 1`, failing on its first attempt. -/
theorem C3_terminal_witness :
    QReach { maxConcurrentTasks := 1, maxConcurrentGhostTabs := 1, taskTimeoutMs := 100
             retryDelayMs := 10, maxRetries := 1 }
      (addTask Qinit { type := "pages", url := "u", priority := 1
                       maxRetries := 1, scheduledFor := 0 } 0).1 ∧
    newCrawlTask { type := "pages", url := "u", priority := 1
                   maxRetries := 1, scheduledFor := 0 } 0
      ∈ (addTask Qinit { type := "pages", url := "u", priority := 1
                         maxRetries := 1, scheduledFor := 0 } 0).1.mem.queue ∧
    (1 : Nat) ≤ (newCrawlTask { type := "pages", url := "u", priority := 1
                                maxRetries := 1, scheduledFor := 0 } 0).retryCount + 1 ∧
    ((∀ u ∈ (execFinish { maxConcurrentTasks := 1, maxConcurrentGhostTabs := 1
                          taskTimeoutMs := 100, retryDelayMs := 10, maxRetries := 1 }
        (addTask Qinit { type := "pages", url := "u", priority := 1
                         maxRetries := 1, scheduledFor := 0 } 0).1
        (newCrawlTask { type := "pages", url := "u", priority := 1
                        maxRetries := 1, scheduledFor := 0 } 0)
        (some "boom") 7 3).mem.queue,
        u.id ≠ (newCrawlTask { type := "pages", url := "u", priority := 1
                               maxRetries := 1, scheduledFor := 0 } 0).id) ∧
      (execFinish { maxConcurrentTasks := 1, maxConcurrentGhostTabs := 1
                    taskTimeoutMs := 100, retryDelayMs := 10, maxRetries := 1 }
        (addTask Qinit { type := "pages", url := "u", priority := 1
                         maxRetries := 1, scheduledFor := 0 } 0).1
        (newCrawlTask { type := "pages", url := "u", priority := 1
                        maxRetries := 1, scheduledFor := 0 } 0)
        (some "boom") 7 3).sto.recentErrors.head? =
        some { id := (newCrawlTask { type := "pages", url := "u", priority := 1
                                     maxRetries := 1, scheduledFor := 0 } 0).id
               type := "pages", url := "u", error := some "boom", whenMs := 7 } ∧
      (execFinish { maxConcurrentTasks := 1, maxConcurrentGhostTabs := 1
                    taskTimeoutMs := 100, retryDelayMs := 10, maxRetries := 1 }
        (addTask Qinit { type := "pages", url := "u", priority := 1
                         maxRetries := 1, scheduledFor := 0 } 0).1
        (newCrawlTask { type := "pages", url := "u", priority := 1
                        maxRetries := 1, scheduledFor := 0 } 0)
        (some "boom") 7 3).sto.recentErrors.length ≤ 50 ∧
      (newCrawlTask { type := "pages", url := "u", priority := 1
                      maxRetries := 1, scheduledFor := 0 } 0).id
        ∈ (execFinish { maxConcurrentTasks := 1, maxConcurrentGhostTabs := 1
                        taskTimeoutMs := 100, retryDelayMs := 10, maxRetries := 1 }
          (addTask Qinit { type := "pages", url := "u", priority := 1
                           maxRetries := 1, scheduledFor := 0 } 0).1
          (newCrawlTask { type := "pages", url := "u", priority := 1
                          maxRetries := 1, scheduledFor := 0 } 0)
          (some "boom") 7 3).mem.failed ∧
      (newCrawlTask { type := "pages", url := "u", priority := 1
                      maxRetries := 1, scheduledFor := 0 } 0).id
        ∉ (execFinish { maxConcurrentTasks := 1, maxConcurrentGhostTabs := 1
                        taskTimeoutMs := 100, retryDelayMs := 10, maxRetries := 1 }
          (addTask Qinit { type := "pages", url := "u", priority := 1
                           maxRetries := 1, scheduledFor := 0 } 0).1
          (newCrawlTask { type := "pages", url := "u", priority := 1
                          maxRetries := 1, scheduledFor := 0 } 0)
          (some "boom") 7 3).mem.running) :=
  ⟨QReach.step QReach.init (QStep.add Qinit _ 0), by decide, by decide,
    C3_terminal_failure.1 _ _ _ "boom" 7 3
      (QReach.step QReach.init (QStep.add Qinit _ 0)) (by decide) (by decide)⟩

/-- The task spec used to exhibit a state where one task id is queued and
in-flight at the same time. -/
def c6Spec : TaskSpec :=
  { type := "pages", url := "https://canvas.test/c6", priority := 4
    maxRetries := 3, scheduledFor := 0 }

set_option maxRecDepth 100000 in
/-- Claim C6 counterexample.  The claim says a task id appears in at most
one of the queued set and the in-flight set at any instant.  In the state
reached by enqueueing a task and starting its execution (the first half of
`executeTask`, before its first `await`), the id is in the `running` set
while the task is still present in the queue array. -/
theorem C6_counterexample :
    QReach defaultConcurrencyConfig
      (execStart (addTask Qinit c6Spec 0).1 (newCrawlTask c6Spec 0).id 5) ∧
    (newCrawlTask c6Spec 0).id ∈
      queueIds (execStart (addTask Qinit c6Spec 0).1 (newCrawlTask c6Spec 0).id 5).mem ∧
    (newCrawlTask c6Spec 0).id ∈
      (execStart (addTask Qinit c6Spec 0).1 (newCrawlTask c6Spec 0).id 5).mem.running := by
  refine ⟨?_, by decide, by decide⟩
  exact QReach.step (QReach.step QReach.init (QStep.add Qinit c6Spec 0))
    (QStep.start _ (newCrawlTask c6Spec 0) 5 (by decide) (by decide) (by decide))

/-- Claim C6 (amended): the queued and in-flight sets are not disjoint —
on the contrary, in every reachable state every in-flight id is still
present in the queue (the entry is only spliced out when the task
settles); what holds instead is that the dispatch guard of `processQueue`
never selects a task whose id is already in the running set, so a task is
never dispatched twice concurrently. -/
theorem C6_running_still_queued :
    (∀ (cfg : ConcurrencyConfig) (st : QState), QReach cfg st →
      ∀ id ∈ st.mem.running, id ∈ queueIds st.mem) ∧
    (∀ (m : QM) (t : CrawlTask) (now : Nat), eligible m t now = true → t.id ∉ m.running) := by
  constructor
  · intro cfg st hreach id hid
    exact (qinv_reach hreach).1.run_sub id hid
  · intro m t now h hmem
    unfold eligible at h
    rw [contains_of_mem hmem] at h
    simp at h

set_option maxRecDepth 100000 in
/-- Witness for `C6_running_still_queued`. -/
theorem C6_running_witness :
    QReach defaultConcurrencyConfig
      (execStart (addTask Qinit c6Spec 0).1 (newCrawlTask c6Spec 0).id 5) ∧
    (newCrawlTask c6Spec 0).id ∈
      (execStart (addTask Qinit c6Spec 0).1 (newCrawlTask c6Spec 0).id 5).mem.running ∧
    (newCrawlTask c6Spec 0).id ∈
      queueIds (execStart (addTask Qinit c6Spec 0).1 (newCrawlTask c6Spec 0).id 5).mem ∧
    eligible (addTask Qinit c6Spec 0).1.mem (newCrawlTask c6Spec 0) 5 = true ∧
    (newCrawlTask c6Spec 0).id ∉ (addTask Qinit c6Spec 0).1.mem.running := by
  have hreach : QReach defaultConcurrencyConfig
      (execStart (addTask Qinit c6Spec 0).1 (newCrawlTask c6Spec 0).id 5) :=
    QReach.step (QReach.step QReach.init (QStep.add Qinit c6Spec 0))
      (QStep.start _ (newCrawlTask c6Spec 0) 5 (by decide) (by decide) (by decide))
  refine ⟨hreach, by decide, ?_, by decide, ?_⟩
  · exact C6_running_still_queued.1 defaultConcurrencyConfig _ hreach _ (by decide)
  · exact C6_running_still_queued.2 (addTask Qinit c6Spec 0).1.mem (newCrawlTask c6Spec 0) 5
      (by decide)

/-- Claim C8 counterexample.  The claim says the retry delay, ignoring
jitter, is strictly increasing in the attempt count.  With the shipped
base delay of 1000 ms, attempts 6 and 7 both yield the 30000 ms ceiling:
the jitter-free delay is not strictly increasing once the cap binds. -/
theorem C8_counterexample :
    calculateRetryDelay (defaultConcurrencyConfig.retryDelayMs : ℚ) 6 0 =
      calculateRetryDelay (defaultConcurrencyConfig.retryDelayMs : ℚ) 7 0 ∧
    calculateRetryDelay (defaultConcurrencyConfig.retryDelayMs : ℚ) 7 0 = 30000 := by
  constructor <;> norm_num [calculateRetryDelay, defaultConcurrencyConfig]

/-- Claim C8 (amended): for every attempt count n ≥ 1 the delay equals
`base * 2^(n-1)` plus a jitter between 0 and 30% of that exponential
value, the sum capped at the 30000 ms ceiling; the delay never exceeds the
ceiling; ignoring the jitter the delay equals `min (base * 2^(n-1)) 30000`,
which is nondecreasing in n and strictly increasing only while the next
value is still below the cap. -/
theorem C8_retryDelay_capped :
    ∀ (base : ℚ) (n : Nat) (rand : ℚ), 0 < base → 0 ≤ rand → rand < 1 → 1 ≤ n →
      (∃ j : ℚ, 0 ≤ j ∧ j ≤ 3 / 10 * (base * 2 ^ ((n : ℤ) - 1)) ∧
        calculateRetryDelay base n rand = min (base * 2 ^ ((n : ℤ) - 1) + j) 30000) ∧
      calculateRetryDelay base n rand ≤ 30000 ∧
      calculateRetryDelay base n 0 = min (base * 2 ^ ((n : ℤ) - 1)) 30000 ∧
      calculateRetryDelay base n 0 ≤ calculateRetryDelay base (n + 1) 0 ∧
      (calculateRetryDelay base (n + 1) 0 < 30000 →
        calculateRetryDelay base n 0 < calculateRetryDelay base (n + 1) 0) := by
  intro base n rand hbase hrand0 hrand1 hn
  have hexp : (0 : ℚ) < 2 ^ ((n : ℤ) - 1) := zpow_pos (by norm_num) _
  have he : (0 : ℚ) < base * 2 ^ ((n : ℤ) - 1) := mul_pos hbase hexp
  have hmono : base * 2 ^ ((n : ℤ) - 1) < base * 2 ^ (((n + 1 : ℕ) : ℤ) - 1) := by
    apply mul_lt_mul_of_pos_left _ hbase
    apply zpow_lt_zpow_right₀ (by norm_num)
    push_cast
    omega
  refine ⟨⟨rand * (3 / 10) * (base * 2 ^ ((n : ℤ) - 1)), ?_, ?_, rfl⟩, ?_, ?_, ?_, ?_⟩
  · positivity
  · nlinarith
  · exact min_le_right _ _
  · show min (base * 2 ^ ((n : ℤ) - 1) + 0 * (3 / 10) * (base * 2 ^ ((n : ℤ) - 1))) 30000 = _
    norm_num
  · unfold calculateRetryDelay
    simp only [zero_mul, add_zero]
    exact min_le_min hmono.le le_rfl
  · unfold calculateRetryDelay
    simp only [zero_mul, add_zero]
    intro hlt
    have h2 : base * 2 ^ (((n + 1 : ℕ) : ℤ) - 1) < 30000 := by
      by_contra hge
      rw [min_eq_right (le_of_not_lt hge)] at hlt
      exact lt_irrefl _ hlt
    calc min (base * 2 ^ ((n : ℤ) - 1)) 30000 ≤ base * 2 ^ ((n : ℤ) - 1) := min_le_left _ _
      _ < base * 2 ^ (((n + 1 : ℕ) : ℤ) - 1) := hmono
      _ = min (base * 2 ^ (((n + 1 : ℕ) : ℤ) - 1)) 30000 := (min_eq_left h2.le).symm

/-- Witness for `C8_retryDelay_capped` at base 1000, attempt 2, draw 1/2. -/
theorem C8_retryDelay_witness :
    (0 : ℚ) < 1000 ∧ (0 : ℚ) ≤ 1 / 2 ∧ (1 : ℚ) / 2 < 1 ∧ (1 : Nat) ≤ 2 ∧
    ((∃ j : ℚ, 0 ≤ j ∧ j ≤ 3 / 10 * (1000 * 2 ^ ((2 : ℤ) - 1)) ∧
        calculateRetryDelay 1000 2 (1 / 2) = min (1000 * 2 ^ ((2 : ℤ) - 1) + j) 30000) ∧
      calculateRetryDelay 1000 2 (1 / 2) ≤ 30000 ∧
      calculateRetryDelay 1000 2 0 = min (1000 * 2 ^ ((2 : ℤ) - 1)) 30000 ∧
      calculateRetryDelay 1000 2 0 ≤ calculateRetryDelay 1000 (2 + 1) 0 ∧
      (calculateRetryDelay 1000 (2 + 1) 0 < 30000 →
        calculateRetryDelay 1000 2 0 < calculateRetryDelay 1000 (2 + 1) 0)) :=
  ⟨by norm_num, by norm_num, by norm_num, by norm_num,
    C8_retryDelay_capped 1000 2 (1 / 2) (by norm_num) (by norm_num) (by norm_num) (by norm_num)⟩

lemma mem_capLast {α : Type} (x : α) (l : List α) :
    x ∈ (if 10 < (l ++ [x]).length then (l ++ [x]).drop ((l ++ [x]).length - 10)
         else (l ++ [x])) := by
  split
  · rename_i hlen
    have hlen2 : (l ++ [x]).length = l.length + 1 := by simp
    rw [hlen2] at hlen
    rw [List.drop_append_of_le_length (by rw [hlen2]; omega)]
    exact List.mem_append_right _ (List.mem_singleton.2 rfl)
  · exact List.mem_append_right _ (List.mem_singleton.2 rfl)

/-- Claim C9: at most one crawl session is recorded as running at any
time; the running guard is set synchronously before any asynchronous work;
a `start()` while running fails leaving the whole state (queue included)
unchanged; and a seeding failure (no hosts configured) ends the created
session with status `failed` — never `completed`. -/
theorem C9_single_running_session :
    (∀ st : SchedState, SReach st → runningSessions st ≤ 1) ∧
    (∀ (st : SchedState) (authOk : Bool) (hosts : List String) (now : Nat),
      st.isRunning = true →
      startCrawlSession st authOk hosts now
        = (st, Except.error "Crawl session already running")) ∧
    (∀ st : SchedState, st.isRunning = false →
      startGuard st = ({ st with isRunning := true }, true)) ∧
    (∀ (st : SchedState) (now : Nat),
      (∃ s ∈ ((startBody st true [] now).1).history, s.status = "failed") ∧
      ((startBody st true [] now).1).currentSession = none ∧
      ((startBody st true [] now).1).isRunning = false ∧
      (∀ s ∈ ((startBody st true [] now).1).history,
        s.status = "completed" → s ∈ st.history) ∧
      (startBody st true [] now).2 = Except.error "No Canvas hosts configured") := by
  refine ⟨?_, ?_, ?_, ?_⟩
  · intro st hreach
    have hinv := sinv_reach hreach
    unfold runningSessions
    have hfil : (st.history.filter (fun s => s.status == "running")).length = 0 := by
      rw [List.length_eq_zero]
      rw [List.filter_eq_nil_iff]
      intro s hs
      simpa using hinv s hs
    rw [hfil]
    cases st.currentSession with
    | none => simp
    | some s =>
        dsimp only
        by_cases hs : s.status = "running" <;> simp [hs]
  · intro st authOk hosts now hrun
    unfold startCrawlSession startGuard
    rw [if_pos hrun]
    rfl
  · intro st h
    unfold startGuard
    rw [if_neg (by rw [h]; exact Bool.false_ne_true)]
  · intro st now
    unfold startBody
    rw [if_neg (by decide)]
    dsimp only
    refine ⟨⟨_, mem_capLast _ _, rfl⟩, rfl, rfl, ?_, rfl⟩
    intro s hs hcomp
    have hs2 := mem_capDrop hs
    rcases List.mem_append.1 hs2 with hmem | heq
    · exact hmem
    · exfalso
      simp only [List.mem_singleton] at heq
      subst heq
      simp at hcomp

/-- A scheduler state with a running session, used by the C9 witness. -/
def c9Running : SchedState :=
  { currentSession := some
      { id := "s1"
        startTime := 0
        status := "running"
        tasksScheduled := 0
        tasksCompleted := 0
        tasksFailed := 0 }
    isRunning := true
    history := []
    queue := Qinit }

/-- A scheduler state right after a successful start guard, used by the C9
witness. -/
def c9Guarded : SchedState :=
  { currentSession := none
    isRunning := true
    history := []
    queue := Qinit }

/-- Witness for `C9_single_running_session`. -/
theorem C9_single_running_witness :
    SReach SInit ∧ runningSessions SInit ≤ 1 ∧
    c9Running.isRunning = true ∧
    startCrawlSession c9Running false ["https://c"] 3
      = (c9Running, Except.error "Crawl session already running") ∧
    SInit.isRunning = false ∧
    startGuard SInit = ({ SInit with isRunning := true }, true) ∧
    (∃ s ∈ ((startBody c9Guarded true [] 9).1).history, s.status = "failed") ∧
    (startBody c9Guarded true [] 9).2 = Except.error "No Canvas hosts configured" :=
  ⟨SReach.init, C9_single_running_session.1 SInit SReach.init, rfl,
    C9_single_running_session.2.1 c9Running false ["https://c"] 3 rfl, rfl,
    C9_single_running_session.2.2.1 SInit rfl,
    (C9_single_running_session.2.2.2 c9Guarded 9).1,
    (C9_single_running_session.2.2.2 c9Guarded 9).2.2.2.2⟩

/-! ## Sync helper lemmas -/

lemma find?_mapSet_replace {α : Type} :
    ∀ (m : List (String × α)) (k : String) (v : α),
      (m.find? (fun p => p.1 == k)).isSome →
      (m.map (fun p => if p.1 == k then (k, v) else p)).find? (fun p => p.1 == k) = some (k, v)
  | [], k, v, h => by simp at h
  | p :: m, k, v, h => by
      by_cases hp : (p.1 == k) = true
      · have hpe : p.1 = k := by simpa using hp
        simp [List.find?_cons, hpe]
      · have h2 : (m.find? (fun p => p.1 == k)).isSome := by
          rw [List.find?_cons] at h
          simp only [hp] at h
          exact h
        simp only [List.map_cons, hp, if_false, Bool.false_eq_true, List.find?_cons]
        exact find?_mapSet_replace m k v h2

lemma mapGet_mapSet {α : Type} (m : List (String × α)) (k : String) (v : α) :
    mapGet (mapSet m k v) k = some v := by
  unfold mapGet mapSet
  by_cases hf : (m.find? (fun p => p.1 == k)).isSome
  · rw [if_pos hf, find?_mapSet_replace m k v hf]
    rfl
  · rw [if_neg hf, List.find?_append]
    have hnone : m.find? (fun p => p.1 == k) = none := by
      cases he : m.find? (fun p => p.1 == k) with
      | none => rfl
      | some p => rw [he] at hf; simp at hf
    rw [hnone]
    simp [List.find?_cons]

lemma mapSet_length_of_found {α : Type} {m : List (String × α)} {k : String} (v : α)
    (h : (m.find? (fun p => p.1 == k)).isSome) : (mapSet m k v).length = m.length := by
  unfold mapSet
  rw [if_pos h]
  simp

lemma updateCacheEntry_signals (cfg : IncrementalSyncConfig) (st : SyncState) (url : String)
    (e : CacheEntry) : (updateCacheEntry cfg st url e).changeSignals = st.changeSignals := by
  unfold updateCacheEntry
  split <;> rfl

lemma getCacheEntry_isSome_find {st : SyncState} {url : String} {e : CacheEntry}
    (h : getCacheEntry st url = some e) : (st.cache.find? (fun p => p.1 == url)).isSome := by
  unfold getCacheEntry mapGet at h
  cases he : st.cache.find? (fun p => p.1 == url) with
  | none => rw [he] at h; simp at h
  | some p => simp

/-- The configuration used by the C4 counterexample. -/
def c4Cfg : IncrementalSyncConfig :=
  { enableLogging := true
    maxCacheAge := 10
    maxCacheEntries := 10000
    enableETagCaching := true
    enableLastModified := true
    enableContentHashing := true
    forceRefreshInterval := 50 }

/-- The cache entry used by the C4 counterexample: `lastChecked` stale,
`lastUpdated` fresh. -/
def c4Entry : CacheEntry :=
  { url := "x"
    contentHash := "h"
    lastChecked := 0
    lastUpdated := 95
    hitCount := 0 }

/-- The cache entry used by the C4 witness: beyond the force-refresh
ceiling while repeatedly validated. -/
def c4Stale : CacheEntry :=
  { url := "x"
    contentHash := "h"
    lastChecked := 600000000
    lastUpdated := 0
    hitCount := 3 }

/-- Claim C4 counterexample.  The claim reads the staleness check as
`now − last-checked > max-cache-age`; the code computes both checks from
`now − lastUpdated`.  An entry with a stale `lastChecked` (0) but a fresh
`lastUpdated` (95) at clock 100 with max-cache-age 10 must refresh per the
claim, but the code returns false. -/
theorem C4_counterexample :
    specShouldRefresh c4Cfg (some c4Entry) false 100 = true ∧
    shouldRefreshUrl c4Cfg (some c4Entry) false 100 = false := by
  constructor <;> decide

/-- Claim C4 (amended): `should-refresh` is true exactly when the force
flag is set, or no cache entry exists, or `now − lastUpdated` exceeds
max-cache-age, or `now − lastUpdated` exceeds force-refresh-interval —
both age checks read `lastUpdated` (the last full-content fetch time), not
`lastChecked`; in particular it returns true once `now − lastUpdated`
exceeds force-refresh-interval regardless of any prior validations (which
advance only `lastChecked`). -/
theorem C4_shouldRefresh_characterization :
    (∀ (cfg : IncrementalSyncConfig) (entry : Option CacheEntry) (force : Bool) (now : Int),
      shouldRefreshUrl cfg entry force now =
        (force || entry.isNone ||
          (match entry with
           | none => false
           | some e => decide (now - e.lastUpdated > cfg.maxCacheAge) ||
               decide (now - e.lastUpdated > cfg.forceRefreshInterval)))) ∧
    (∀ (cfg : IncrementalSyncConfig) (e : CacheEntry) (force : Bool) (now : Int),
      now - e.lastUpdated > cfg.forceRefreshInterval →
      shouldRefreshUrl cfg (some e) force now = true) := by
  constructor
  · intro cfg entry force now
    unfold shouldRefreshUrl
    cases entry with
    | none => cases force <;> simp
    | some e =>
        cases force with
        | true => simp
        | false =>
            by_cases h1 : now - e.lastUpdated > cfg.maxCacheAge
            · simp [h1]
            · by_cases h2 : now - e.lastUpdated > cfg.forceRefreshInterval
              · simp [h1, h2]
              · simp [h1, h2]
  · intro cfg e force now h2
    unfold shouldRefreshUrl
    cases force with
    | true => simp
    | false =>
        by_cases h1 : now - e.lastUpdated > cfg.maxCacheAge
        · simp [h1]
        · simp [h1, h2]

/-- Witness for `C4_shouldRefresh_characterization`. -/
theorem C4_shouldRefresh_witness :
    (700000000 : Int) - c4Stale.lastUpdated > defaultSyncConfig.forceRefreshInterval ∧
    shouldRefreshUrl defaultSyncConfig (some c4Stale) false 700000000 = true :=
  ⟨by decide, C4_shouldRefresh_characterization.2 defaultSyncConfig c4Stale false 700000000
    (by decide)⟩

/-- The cache entry for URL `x` used by the C5 scenarios, holding
validators from a prior fetch. -/
def c5Entry : CacheEntry :=
  { url := "x"
    etag := some "W1"
    lastModified := some "LM"
    contentHash := "h"
    lastChecked := 0
    lastUpdated := 0
    hitCount := 0 }

/-- The sync state used by the C5 and C10 scenarios: one cached entry. -/
def c5State : SyncState :=
  { cache := [("x", c5Entry)]
    changeSignals := [] }

/-- Claim C5 counterexample.  The claim says a conditional fetch answered
"not modified" makes `sync` return `served-from-cache = false`.  The 304
branch of `syncUrl` returns `cached: true`. -/
theorem C5_counterexample :
    (syncUrl defaultSyncConfig (fun s => s) c5State "x" false
      (FetchOutcome.response 304 "" none none) 700000000).2.cached = true ∧
    (syncUrl defaultSyncConfig (fun s => s) c5State "x" false
      (FetchOutcome.response 304 "" none none) 700000000).2.changed = false ∧
    (syncUrl defaultSyncConfig (fun s => s) c5State "x" false
      (FetchOutcome.response 304 "" none none) 700000000).2.contentHash = "h" := by
  refine ⟨?_, ?_, ?_⟩ <;> decide

/-- Claim C5 (amended): on a 304 response for a URL with a cache entry,
`sync` returns `changed = false` and `served-from-cache = true` (not
false), the entry's fingerprint and validators are reported and stored
unchanged, and the stored entry advances only `lastChecked` (and the hit
count) — `lastUpdated` is untouched. -/
theorem C5_notModified_updates_lastChecked :
    ∀ (cfg : IncrementalSyncConfig) (digest : String → String) (st : SyncState)
      (url : String) (force : Bool) (now : Int) (e : CacheEntry)
      (content : String) (etg lm : Option String),
      getCacheEntry st url = some e →
      shouldRefreshUrl cfg (some e) force now = true →
      st.cache.length ≤ cfg.maxCacheEntries →
      (syncUrl cfg digest st url force (FetchOutcome.response 304 content etg lm) now).2
        = { url := url
            changed := false
            cached := true
            etag := e.etag
            lastModified := e.lastModified
            contentHash := e.contentHash } ∧
      getCacheEntry
        (syncUrl cfg digest st url force (FetchOutcome.response 304 content etg lm) now).1 url
        = some { e with lastChecked := now, hitCount := e.hitCount + 1 } ∧
      (syncUrl cfg digest st url force (FetchOutcome.response 304 content etg lm) now).1.changeSignals
        = st.changeSignals := by
  intro cfg digest st url force now e content etg lm hce hsr hsize
  have hfind := getCacheEntry_isSome_find hce
  have hred : syncUrl cfg digest st url force (FetchOutcome.response 304 content etg lm) now
      = ( updateCacheEntry cfg st url { e with lastChecked := now, hitCount := e.hitCount + 1 }
        , { url := url
            changed := false
            cached := true
            etag := e.etag
            lastModified := e.lastModified
            contentHash := e.contentHash } ) := by
    unfold syncUrl
    rw [hce, hsr]
    rfl
  rw [hred]
  refine ⟨rfl, ?_, updateCacheEntry_signals cfg st url _⟩
  unfold updateCacheEntry
  rw [if_neg]
  · exact mapGet_mapSet st.cache url _
  · rw [mapSet_length_of_found _ hfind]
    omega

/-- Witness for `C5_notModified_updates_lastChecked` at the `c5State`
example. -/
theorem C5_notModified_witness :
    getCacheEntry c5State "x" = some c5Entry ∧
    shouldRefreshUrl defaultSyncConfig (some c5Entry) false 700000000 = true ∧
    c5State.cache.length ≤ defaultSyncConfig.maxCacheEntries ∧
    ((syncUrl defaultSyncConfig (fun s => s) c5State "x" false
        (FetchOutcome.response 304 "" none none) 700000000).2
      = { url := "x"
          changed := false
          cached := true
          etag := c5Entry.etag
          lastModified := c5Entry.lastModified
          contentHash := c5Entry.contentHash } ∧
     getCacheEntry
       (syncUrl defaultSyncConfig (fun s => s) c5State "x" false
          (FetchOutcome.response 304 "" none none) 700000000).1 "x"
       = some { c5Entry with lastChecked := 700000000, hitCount := c5Entry.hitCount + 1 } ∧
     (syncUrl defaultSyncConfig (fun s => s) c5State "x" false
        (FetchOutcome.response 304 "" none none) 700000000).1.changeSignals
       = c5State.changeSignals) :=
  ⟨by decide, by decide, by decide,
    C5_notModified_updates_lastChecked defaultSyncConfig (fun s => s) c5State "x" false
      700000000 c5Entry "" none none (by decide) (by decide) (by decide)⟩

/-- Claim C10: when the conditional fetch throws (network error or non-ok,
non-304 status), `sync` does not propagate the exception: it returns the
error-shaped result (`changed = false`, `served-from-cache = false`, empty
fingerprint) and the whole sync state — cache entry and change signals —
is left unchanged. -/
theorem C10_sync_error_result :
    (∀ (cfg : IncrementalSyncConfig) (digest : String → String) (st : SyncState)
      (url : String) (force : Bool) (now : Int) (out : FetchOutcome),
      shouldRefreshUrl cfg (getCacheEntry st url) force now = true →
      conditionalFetch (getCacheEntry st url) out = none →
      syncUrl cfg digest st url force out now
        = (st, { url := url, changed := false, cached := false, contentHash := "" })) ∧
    (∀ entry : Option CacheEntry, conditionalFetch entry FetchOutcome.thrown = none) ∧
    (∀ (entry : Option CacheEntry) (status : Nat) (content : String) (etg lm : Option String),
      (status == 304) = false → (200 ≤ status && status ≤ 299) = false →
      conditionalFetch entry (FetchOutcome.response status content etg lm) = none) := by
  refine ⟨?_, ?_, ?_⟩
  · intro cfg digest st url force now out hsr hcf
    unfold syncUrl
    cases hce : getCacheEntry st url with
    | none =>
        rw [hce] at hsr hcf
        rw [hsr, hcf]
    | some e =>
        rw [hce] at hsr hcf
        rw [hsr, hcf]
  · intro entry
    rfl
  · intro entry status content etg lm h304 hok
    unfold conditionalFetch
    dsimp only
    rw [if_neg (by simp [h304]), if_neg (by simp [hok])]

/-- Witness for `C10_sync_error_result`. -/
theorem C10_sync_error_witness :
    shouldRefreshUrl defaultSyncConfig (getCacheEntry c5State "x") false 700000000 = true ∧
    conditionalFetch (getCacheEntry c5State "x") FetchOutcome.thrown = none ∧
    syncUrl defaultSyncConfig (fun s => s) c5State "x" false FetchOutcome.thrown 700000000
      = (c5State, { url := "x", changed := false, cached := false, contentHash := "" }) :=
  ⟨by decide, by decide,
    C10_sync_error_result.1 defaultSyncConfig (fun s => s) c5State "x" false 700000000
      FetchOutcome.thrown (by decide) (by decide)⟩

/-! ## Generic scanner lemmas (for C7) -/

/-- A step function is *shrinking* when every match consumes at least one
character; all six regex steps are. -/
def Shrinking (step : List Char → Option (List Char × List Char)) : Prop :=
  ∀ l r rest, step l = some (r, rest) → rest.length < l.length

lemma scanGo_irrel {step : List Char → Option (List Char × List Char)}
    (hstep : Shrinking step) :
    ∀ (f1 : Nat) (l : List Char) (f2 : Nat), l.length ≤ f1 → l.length ≤ f2 →
      scanGo step f1 l = scanGo step f2 l := by
  intro f1
  induction f1 with
  | zero =>
      intro l f2 h1 _
      have : l = [] := List.length_eq_zero.1 (Nat.le_zero.1 h1)
      subst this
      cases f2 <;> rfl
  | succ f1 ih =>
      intro l f2 h1 h2
      cases l with
      | nil => cases f2 <;> rfl
      | cons c cs =>
          cases f2 with
          | zero => simp at h2
          | succ f2 =>
              show (match step (c :: cs) with
                  | some (r, rest) => r ++ scanGo step f1 rest
                  | none => c :: scanGo step f1 cs) =
                (match step (c :: cs) with
                  | some (r, rest) => r ++ scanGo step f2 rest
                  | none => c :: scanGo step f2 cs)
              cases hs : step (c :: cs) with
              | none =>
                  simp only [List.length_cons] at h1 h2
                  dsimp only
                  rw [ih cs f2 (by omega) (by omega)]
              | some p =>
                  obtain ⟨r, rest⟩ := p
                  have hlt := hstep _ _ _ hs
                  simp only [List.length_cons] at h1 h2 hlt
                  dsimp only
                  rw [ih rest f2 (by omega) (by omega)]

lemma scan_cons_none {step : List Char → Option (List Char × List Char)} {c : Char}
    {cs : List Char} (h : step (c :: cs) = none) :
    scan step (c :: cs) = c :: scan step cs := by
  show scanGo step (c :: cs).length (c :: cs) = _
  rw [show (c :: cs).length = cs.length + 1 from rfl]
  show (match step (c :: cs) with
      | some (r, rest) => r ++ scanGo step cs.length rest
      | none => c :: scanGo step cs.length cs) = _
  rw [h]
  rfl

lemma scan_cons_some {step : List Char → Option (List Char × List Char)}
    (hstep : Shrinking step) {c : Char} {cs r rest : List Char}
    (h : step (c :: cs) = some (r, rest)) :
    scan step (c :: cs) = r ++ scan step rest := by
  show scanGo step (c :: cs).length (c :: cs) = _
  rw [show (c :: cs).length = cs.length + 1 from rfl]
  show (match step (c :: cs) with
      | some (r, rest) => r ++ scanGo step cs.length rest
      | none => c :: scanGo step cs.length cs) = _
  rw [h]
  have hlt := hstep _ _ _ h
  simp only [List.length_cons] at hlt
  dsimp only
  rw [scanGo_irrel hstep cs.length rest rest.length (by omega) le_rfl]
  rfl

lemma scan_append_of_fail {step : List Char → Option (List Char × List Char)} :
    ∀ (P S : List Char), (∀ c u, (c :: u) <:+ P → step ((c :: u) ++ S) = none) →
      scan step (P ++ S) = P ++ scan step S
  | [], S, _ => by simp
  | c :: P, S, hfail => by
      have h1 : step (c :: (P ++ S)) = none := by
        rw [← List.cons_append]
        exact hfail c P List.suffix_rfl
      rw [List.cons_append, scan_cons_none h1]
      rw [scan_append_of_fail P S (fun d u hsuf => hfail d u (hsuf.trans (List.suffix_cons c P)))]
      rfl

lemma scan_id_of_fail {step : List Char → Option (List Char × List Char)} :
    ∀ (l : List Char), (∀ c u, (c :: u) <:+ l → step (c :: u) = none) →
      scan step l = l
  | [], _ => rfl
  | c :: l, hfail => by
      rw [scan_cons_none (hfail c l List.suffix_rfl)]
      rw [scan_id_of_fail l (fun d u hsuf => hfail d u (hsuf.trans (List.suffix_cons c l)))]

/-! ## Matcher lemmas -/

lemma matchCI_length {ps l r : List Char} (h : matchCI ps l = some r) :
    r.length + ps.length = l.length := by
  induction ps generalizing l with
  | nil =>
      simp [matchCI] at h
      simp [h]
  | cons p ps ih =>
      cases l with
      | nil => simp [matchCI] at h
      | cons c cs =>
          simp only [matchCI] at h
          by_cases hc : (lowerAscii c == p) = true
          · rw [if_pos hc] at h
            have := ih h
            simp only [List.length_cons]
            omega
          · rw [if_neg hc] at h
            exact absurd h (by simp)

lemma matchCI_suffix {ps l r : List Char} (h : matchCI ps l = some r) : r <:+ l := by
  induction ps generalizing l with
  | nil =>
      simp [matchCI] at h
      simp [h]
  | cons p ps ih =>
      cases l with
      | nil => simp [matchCI] at h
      | cons c cs =>
          simp only [matchCI] at h
          by_cases hc : (lowerAscii c == p) = true
          · rw [if_pos hc] at h
            exact (ih h).trans (List.suffix_cons c cs)
          · rw [if_neg hc] at h
            exact absurd h (by simp)

lemma tokenMatch_nil (word idpart : List Char) : tokenMatch word idpart [] = none := by
  cases word with
  | nil => rfl
  | cons p ps => rfl

lemma tokenMatch_length {word idpart l r : List Char}
    (h : tokenMatch word idpart l = some r) : r.length < l.length ∨ l = [] := by
  unfold tokenMatch at h
  cases h1 : matchCI word l with
  | none => rw [h1] at h; simp at h
  | some r1 =>
      rw [h1] at h
      dsimp only at h
      cases r1 with
      | nil => simp at h
      | cons d r2 =>
          dsimp only at h
          by_cases hd : (d == '_' || d == '-') = true
          · rw [if_pos hd] at h
            cases h3 : matchCI idpart r2 with
            | none => rw [h3] at h; simp at h
            | some r3 =>
                rw [h3] at h
                simp only [Option.some.injEq] at h
                have hl1 := matchCI_length h1
                have hl3 := matchCI_length h3
                have hdw := (List.dropWhile_sublist (l := r3) (p := tokenChar)).length_le
                left
                rw [← h]
                simp only [List.length_cons] at hl1
                omega
          · rw [if_neg hd] at h
            simp at h

lemma shrinking_tokenStep (word idpart repl : List Char) :
    Shrinking (tokenStep word idpart repl) := by
  intro l r rest h
  unfold tokenStep at h
  cases hm : tokenMatch word idpart l with
  | none => rw [hm] at h; simp at h
  | some rest2 =>
      rw [hm] at h
      simp only [Option.map] at h
      simp only [Option.some.injEq, Prod.mk.injEq] at h
      rcases tokenMatch_length hm with hlt | hnil
      · rw [← h.2]
        exact hlt
      · subst hnil
        rw [tokenMatch_nil] at hm
        exact absurd hm (by simp)

lemma idMatch_length {l r : List Char} (h : idMatch l = some r) : r.length < l.length := by
  unfold idMatch at h
  by_cases hc : (testAt (fun c => c == 'i') l 0 && testAt (fun c => c == 'd') l 1 &&
      testAt (fun c => c == '=') l 2 && testAt (fun c => c == '"') l 3) = true
  · rw [if_pos hc] at h
    have hlen4 : 3 < l.length := by
      have := hc
      simp only [Bool.and_eq_true, testAt] at this
      rcases this with ⟨⟨⟨_, _⟩, _⟩, h3⟩
      cases hg : l[3]? with
      | none => rw [hg] at h3; simp at h3
      | some c => exact (List.getElem?_eq_some_iff.1 hg).1
    cases hd : (l.drop 4).dropWhile (fun c => !(c == '"')) with
    | nil => rw [hd] at h; simp at h
    | cons q rest =>
        rw [hd] at h
        dsimp only at h
        by_cases hrun : hasDigitRun10 ((l.drop 4).takeWhile (fun c => !(c == '"'))) = true
        · rw [if_pos hrun] at h
          simp only [Option.some.injEq] at h
          have h1 : (q :: rest).length ≤ (l.drop 4).length := by
            rw [← hd]
            exact (List.dropWhile_sublist _).length_le
          simp only [List.length_cons, List.length_drop] at h1
          subst h
          omega
        · rw [if_neg hrun] at h
          simp at h
  · rw [if_neg hc] at h
    simp at h

lemma shrinking_idStep : Shrinking idStep := by
  intro l r rest h
  unfold idStep at h
  cases hm : idMatch l with
  | none => rw [hm] at h; simp at h
  | some rest2 =>
      rw [hm] at h
      simp only [Option.map] at h
      simp only [Option.some.injEq, Prod.mk.injEq] at h
      rw [← h.2]
      exact idMatch_length hm

lemma isIsoAt_length {l : List Char} (h : isIsoAt l = true) : 19 ≤ l.length := by
  unfold isIsoAt at h
  simp only [Bool.and_eq_true] at h
  have h18 := h.2
  unfold testAt at h18
  cases hg : l[18]? with
  | none => rw [hg] at h18; simp at h18
  | some c =>
      have := (List.getElem?_eq_some_iff.1 hg).1
      omega

lemma shrinking_isoStep : Shrinking isoStep := by
  intro l r rest h
  unfold isoStep at h
  by_cases hc : isIsoAt l = true
  · rw [if_pos hc] at h
    simp only [Option.some.injEq, Prod.mk.injEq] at h
    have := isIsoAt_length hc
    rw [← h.2]
    simp only [List.length_drop]
    omega
  · rw [if_neg hc] at h
    simp at h

lemma shrinking_digitsStep : Shrinking digitsStep := by
  intro l r rest h
  unfold digitsStep at h
  by_cases hc : 13 ≤ (l.takeWhile Char.isDigit).length
  · rw [if_pos hc] at h
    simp only [Option.some.injEq, Prod.mk.injEq] at h
    cases l with
    | nil => simp at hc
    | cons c cs =>
        have hcd : Char.isDigit c = true := by
          by_contra hcd
          rw [List.takeWhile_cons] at hc
          simp [hcd] at hc
        rw [← h.2, List.dropWhile_cons, if_pos hcd]
        have := (List.dropWhile_sublist (l := cs) (p := Char.isDigit)).length_le
        simp only [List.length_cons]
        omega
  · rw [if_neg hc] at h
    simp at h

lemma shrinking_wsStep : Shrinking wsStep := by
  intro l r rest h
  unfold wsStep at h
  cases l with
  | nil => simp at h
  | cons c cs =>
      dsimp only at h
      by_cases hc : jsWs c = true
      · rw [if_pos hc] at h
        simp only [Option.some.injEq, Prod.mk.injEq] at h
        rw [← h.2]
        have := (List.dropWhile_sublist (l := cs) (p := jsWs)).length_le
        simp only [List.length_cons]
        omega
      · rw [if_neg hc] at h
        simp at h

/-! ## Per-pass helper lemmas -/

lemma head_mem_of_suffix {c : Char} {u l : List Char} (h : (c :: u) <:+ l) : c ∈ l :=
  h.subset (List.mem_cons_self c u)

lemma takeWhile_append_all {p : Char → Bool} :
    ∀ (A B : List Char), (∀ c ∈ A, p c = true) →
      (A ++ B).takeWhile p = A ++ B.takeWhile p
  | [], B, _ => by simp
  | a :: A, B, h => by
      rw [List.cons_append, List.takeWhile_cons, if_pos (h a (List.mem_cons_self a A))]
      rw [takeWhile_append_all A B (fun c hc => h c (List.mem_cons_of_mem a hc))]
      rfl

lemma dropWhile_append_all {p : Char → Bool} :
    ∀ (A B : List Char), (∀ c ∈ A, p c = true) →
      (A ++ B).dropWhile p = B.dropWhile p
  | [], B, _ => by simp
  | a :: A, B, h => by
      rw [List.cons_append, List.dropWhile_cons, if_pos (h a (List.mem_cons_self a A))]
      exact dropWhile_append_all A B (fun c hc => h c (List.mem_cons_of_mem a hc))

lemma suffix_append_cases {B : Type} {l S : List B} :
    ∀ (A : List B), l <:+ A ++ S →
      l <:+ S ∨ ∃ c A2, (c :: A2) <:+ A ∧ l = (c :: A2) ++ S
  | [], h => Or.inl h
  | a :: A, h => by
      rw [List.cons_append] at h
      rcases List.suffix_cons_iff.1 h with rfl | h2
      · exact Or.inr ⟨a, A, List.suffix_rfl, by rw [List.cons_append]⟩
      · rcases suffix_append_cases A h2 with h3 | ⟨c, A2, h4, h5⟩
        · exact Or.inl h3
        · exact Or.inr ⟨c, A2, h4.trans (List.suffix_cons a A), h5⟩

/-- Pass 1 never fires on dash-free text: the pattern requires a `-` at
offset 4. -/
lemma isoStep_none_of_no_dash {l : List Char} (h : ∀ c ∈ l, (c == '-') = false) :
    isoStep l = none := by
  unfold isoStep
  rw [if_neg]
  intro hiso
  unfold isIsoAt at hiso
  simp only [Bool.and_eq_true] at hiso
  have h4 := hiso.1.1.1.1.1.1.1.1.1.1.1.1.1.1.2
  unfold testAt at h4
  cases hg : l[4]? with
  | none => rw [hg] at h4; simp at h4
  | some c =>
      rw [hg] at h4
      have hc : c = '-' := by simpa using h4
      subst hc
      have := h '-' (List.getElem?_mem hg)
      simp at this

lemma isoScan_id_of_no_dash {l : List Char} (h : ∀ c ∈ l, (c == '-') = false) :
    isoScan l = l :=
  scan_id_of_fail l (fun _ _ hsuf =>
    isoStep_none_of_no_dash (fun d hd => h d (hsuf.subset hd)))

lemma digitsStep_none_of_head_nondigit {c : Char} {l : List Char}
    (h : c.isDigit = false) : digitsStep (c :: l) = none := by
  unfold digitsStep
  rw [List.takeWhile_cons, if_neg (by simp [h])]

lemma digitsScan_id_of_no_digits {l : List Char} (h : ∀ c ∈ l, c.isDigit = false) :
    digitsScan l = l :=
  scan_id_of_fail l (fun c _ hsuf =>
    digitsStep_none_of_head_nondigit (h c (head_mem_of_suffix hsuf)))

/-- Passes 3-5 never fire on text without a `_` or `-` separator. -/
lemma tokenMatch_none_of_no_sep (word idpart : List Char) {l : List Char}
    (h : ∀ c ∈ l, (c == '_') = false ∧ (c == '-') = false) :
    tokenMatch word idpart l = none := by
  unfold tokenMatch
  cases h1 : matchCI word l with
  | none => rfl
  | some r1 =>
      cases r1 with
      | nil => rfl
      | cons d r2 =>
          dsimp only
          rw [if_neg]
          have hd : d ∈ l := (matchCI_suffix h1).subset (List.mem_cons_self d r2)
          have := h d hd
          simp [this.1, this.2]

lemma tokenStep_none_of_no_sep (word idpart repl : List Char) {l : List Char}
    (h : ∀ c ∈ l, (c == '_') = false ∧ (c == '-') = false) :
    tokenStep word idpart repl l = none := by
  unfold tokenStep
  rw [tokenMatch_none_of_no_sep word idpart h]
  rfl

lemma tokenScan_id_of_no_sep (word idpart repl : List Char) {l : List Char}
    (h : ∀ c ∈ l, (c == '_') = false ∧ (c == '-') = false) :
    tokenScan word idpart repl l = l :=
  scan_id_of_fail l (fun _ _ hsuf =>
    tokenStep_none_of_no_sep word idpart repl (fun d hd => h d (hsuf.subset hd)))

lemma tokenStep_none_of_head_ne {w0 c : Char} (ws idpart repl : List Char)
    {l : List Char} (h : (lowerAscii c == w0) = false) :
    tokenStep (w0 :: ws) idpart repl (c :: l) = none := by
  unfold tokenStep tokenMatch matchCI
  rw [if_neg (by simp [h])]
  rfl

lemma hasDigitRun10_cons (c : Char) {l : List Char} (h : hasDigitRun10 l = true) :
    hasDigitRun10 (c :: l) = true := by
  unfold hasDigitRun10
  cases l with
  | nil => simp [hasDigitRun10] at h
  | cons d ds => simp [h]

lemma hasDigitRun10_append_right {l : List Char} (h : hasDigitRun10 l = true) :
    ∀ (A : List Char), hasDigitRun10 (A ++ l) = true
  | [] => h
  | a :: A => by
      rw [List.cons_append]
      exact hasDigitRun10_cons a (hasDigitRun10_append_right h A)

lemma hasDigitRun10_of_run {ds B : List Char} (h10 : 10 ≤ ds.length)
    (hall : ∀ c ∈ ds, c.isDigit = true) : hasDigitRun10 (ds ++ B) = true := by
  cases ds with
  | nil => simp at h10
  | cons d ds2 =>
      unfold hasDigitRun10
      rw [List.cons_append]
      have ht : ((d :: ds2) ++ B).takeWhile Char.isDigit =
          (d :: ds2) ++ B.takeWhile Char.isDigit := takeWhile_append_all _ _ hall
      rw [List.cons_append] at ht
      have : 10 ≤ ((d :: (ds2 ++ B)).takeWhile Char.isDigit).length := by
        rw [ht]
        simp only [List.length_cons, List.length_append]
        simp only [List.length_cons] at h10
        omega
      simp [this]

lemma idStep_none_of_head_ne {c : Char} {l : List Char} (h : (c == 'i') = false) :
    idStep (c :: l) = none := by
  unfold idStep idMatch
  rw [if_neg]
  · rfl
  · unfold testAt
    simp [h]

lemma idStep_none_of_second_ne {c d : Char} {l : List Char} (h : (d == 'd') = false) :
    idStep (c :: d :: l) = none := by
  unfold idStep idMatch
  rw [if_neg]
  · rfl
  · unfold testAt
    simp [h]

/-! ## Character-class facts and firing lemmas -/

/-- The lowercase ASCII letters, the alphabet of the symbolic token bodies. -/
def lowerLetters : List Char := "abcdefghijklmnopqrstuvwxyz".data

def lowerLetter (c : Char) : Bool := lowerLetters.contains c

lemma lowerLetter_props {c : Char} (h : lowerLetter c = true) :
    (c == '-') = false ∧ (c == '_') = false ∧ c.isDigit = false ∧
      tokenChar c = true ∧ (c == '"') = false := by
  have hc : c ∈ lowerLetters := by simpa [lowerLetter] using h
  exact ⟨(by decide : ∀ x ∈ lowerLetters, (x == '-') = false) c hc,
    (by decide : ∀ x ∈ lowerLetters, (x == '_') = false) c hc,
    (by decide : ∀ x ∈ lowerLetters, x.isDigit = false) c hc,
    (by decide : ∀ x ∈ lowerLetters, tokenChar x = true) c hc,
    (by decide : ∀ x ∈ lowerLetters, (x == '"') = false) c hc⟩

lemma digit_char_props {c : Char} (h : c.isDigit = true) :
    (c == '-') = false ∧ (c == '_') = false ∧ (c == '"') = false := by
  refine ⟨?_, ?_, ?_⟩ <;>
    (first
      | (cases hb : c == '-' with
          | false => rfl
          | true => exact absurd ((eq_of_beq hb) ▸ h) (by decide))
      | (cases hb : c == '_' with
          | false => rfl
          | true => exact absurd ((eq_of_beq hb) ▸ h) (by decide))
      | (cases hb : c == '"' with
          | false => rfl
          | true => exact absurd ((eq_of_beq hb) ▸ h) (by decide)))

lemma scan_some {step : List Char → Option (List Char × List Char)}
    (hstep : Shrinking step) {l r rest : List Char} (h : step l = some (r, rest)) :
    scan step l = r ++ scan step rest := by
  cases l with
  | nil =>
      have := hstep _ _ _ h
      simp at this
  | cons c cs => exact scan_cons_some hstep h

lemma takeWhile_nil_of_all_false {p : Char → Bool} {l : List Char}
    (h : ∀ c ∈ l, p c = false) : l.takeWhile p = [] := by
  cases l with
  | nil => rfl
  | cons c cs =>
      rw [List.takeWhile_cons, if_neg (by simp [h c (List.mem_cons_self c cs)])]

lemma digitsStep_none_of_short {l : List Char}
    (h : (l.takeWhile Char.isDigit).length < 13) : digitsStep l = none := by
  unfold digitsStep
  rw [if_neg (by omega)]

lemma testAt_append_left (p : Char → Bool) (t S : List Char) (i : Nat)
    (h : i < t.length) : testAt p (t ++ S) i = testAt p t i := by
  unfold testAt
  rw [List.getElem?_append_left h]

lemma isoStep_none_of_head_nondigit {c : Char} {l : List Char}
    (h : c.isDigit = false) : isoStep (c :: l) = none := by
  unfold isoStep
  rw [if_neg]
  intro hiso
  unfold isIsoAt at hiso
  simp only [Bool.and_eq_true] at hiso
  have h0 := hiso.1.1.1.1.1.1.1.1.1.1.1.1.1.1.1.1.1.1
  unfold testAt at h0
  simp only [List.getElem?_cons_zero] at h0
  rw [h] at h0
  exact absurd h0 (by simp)

lemma isoStep_fire {t : List Char} (S : List Char) (h19 : t.length = 19)
    (hiso : isIsoAt t = true) : isoStep (t ++ S) = some (tsRepl, S) := by
  unfold isoStep
  have happ : isIsoAt (t ++ S) = true := by
    unfold isIsoAt at hiso ⊢
    rw [testAt_append_left _ t S 0 (by omega), testAt_append_left _ t S 1 (by omega),
      testAt_append_left _ t S 2 (by omega), testAt_append_left _ t S 3 (by omega),
      testAt_append_left _ t S 4 (by omega), testAt_append_left _ t S 5 (by omega),
      testAt_append_left _ t S 6 (by omega), testAt_append_left _ t S 7 (by omega),
      testAt_append_left _ t S 8 (by omega), testAt_append_left _ t S 9 (by omega),
      testAt_append_left _ t S 10 (by omega), testAt_append_left _ t S 11 (by omega),
      testAt_append_left _ t S 12 (by omega), testAt_append_left _ t S 13 (by omega),
      testAt_append_left _ t S 14 (by omega), testAt_append_left _ t S 15 (by omega),
      testAt_append_left _ t S 16 (by omega), testAt_append_left _ t S 17 (by omega),
      testAt_append_left _ t S 18 (by omega)]
    exact hiso
  rw [if_pos happ]
  have hdrop : (t ++ S).drop 19 = S := by
    rw [← h19]
    exact List.drop_left t S
  rw [hdrop]

lemma digitsStep_fire {ds : List Char} (S : List Char)
    (hall : ∀ c ∈ ds, c.isDigit = true) (h13 : 13 ≤ ds.length)
    (hT : S.takeWhile Char.isDigit = []) (hD : S.dropWhile Char.isDigit = S) :
    digitsStep (ds ++ S) = some (tsRepl, S) := by
  unfold digitsStep
  rw [takeWhile_append_all ds S hall, hT, List.append_nil,
    dropWhile_append_all ds S hall, hD, if_pos h13]

lemma digitsScan_id_of_short_run (A ds B : List Char)
    (hA : ∀ c ∈ A, c.isDigit = false) (hall : ∀ c ∈ ds, c.isDigit = true)
    (hlen : ds.length ≤ 12) (hB : ∀ c ∈ B, c.isDigit = false) :
    digitsScan (A ++ (ds ++ B)) = A ++ (ds ++ B) := by
  unfold digitsScan
  rw [scan_append_of_fail A (ds ++ B) (fun c u hsuf =>
    digitsStep_none_of_head_nondigit (hA c (head_mem_of_suffix hsuf)))]
  rw [scan_id_of_fail (ds ++ B) ?_]
  intro c u hsuf
  rcases suffix_append_cases ds hsuf with h | ⟨d, A2, h4, h5⟩
  · exact digitsStep_none_of_head_nondigit (hB c (head_mem_of_suffix h))
  · rw [h5]
    apply digitsStep_none_of_short
    have hd : ∀ x ∈ d :: A2, x.isDigit = true := fun x hx => hall x (h4.subset hx)
    rw [takeWhile_append_all (d :: A2) B hd, takeWhile_nil_of_all_false hB,
      List.append_nil]
    have := h4.length_le
    simp only [List.length_cons] at this ⊢
    omega

lemma idMatch_fire (body R : List Char) (hq : ∀ c ∈ body, (c == '"') = false)
    (hrun : hasDigitRun10 body = true) :
    idMatch ("id=\x22".data ++ (body ++ ('"' :: R))) = some R := by
  have hqt : ∀ c ∈ body, (fun c => !(c == '"')) c = true := by
    intro c hc
    simp [hq c hc]
  have hguard : (testAt (fun c => c == 'i') ("id=\x22".data ++ (body ++ ('"' :: R))) 0 &&
      testAt (fun c => c == 'd') ("id=\x22".data ++ (body ++ ('"' :: R))) 1 &&
      testAt (fun c => c == '=') ("id=\x22".data ++ (body ++ ('"' :: R))) 2 &&
      testAt (fun c => c == '"') ("id=\x22".data ++ (body ++ ('"' :: R))) 3) = true := by
    simp [testAt]
  have hdrop : ("id=\x22".data ++ (body ++ ('"' :: R))).drop 4 = body ++ ('"' :: R) := rfl
  have hdw : (body ++ ('"' :: R)).dropWhile (fun c => !(c == '"')) = '"' :: R := by
    rw [dropWhile_append_all body ('"' :: R) hqt, List.dropWhile_cons, if_neg (by decide)]
  have htw : (body ++ ('"' :: R)).takeWhile (fun c => !(c == '"')) = body := by
    rw [takeWhile_append_all body ('"' :: R) hqt, List.takeWhile_cons,
      if_neg (by decide), List.append_nil]
  unfold idMatch
  rw [if_pos hguard, hdrop, hdw]
  dsimp only
  rw [htw, if_pos hrun]

lemma idStep_fire (body R : List Char) (hq : ∀ c ∈ body, (c == '"') = false)
    (hrun : hasDigitRun10 body = true) :
    idStep ("id=\x22".data ++ (body ++ ('"' :: R))) = some (idRepl, R) := by
  unfold idStep
  rw [idMatch_fire body R hq hrun]
  rfl

lemma sessionStep_fire (t Q : List Char) (htok : ∀ c ∈ t, tokenChar c = true)
    (hQT : Q.dropWhile tokenChar = Q) :
    tokenStep "session".data "id".data "SESSION_ID".data
      ("session_id=".data ++ (t ++ Q)) = some ("SESSION_ID".data, Q) := by
  unfold tokenStep
  have hm : tokenMatch "session".data "id".data ("session_id=".data ++ (t ++ Q)) =
      some (('=' :: (t ++ Q)).dropWhile tokenChar) := rfl
  rw [hm]
  simp only [Option.map]
  rw [List.dropWhile_cons, if_pos (by decide), dropWhile_append_all t Q htok, hQT]

/-! ## Content families for the volatile-field regexes: fixed markup around a
symbolic volatile field, one family per normalization pass that canonicalizes
data (ISO timestamp, epoch digit run, session token, id attribute). -/

def pageIso (t : List Char) : String :=
  String.mk ("<time>".data ++ (t ++ "</time>".data))

def pageEpoch (ds : List Char) : String :=
  String.mk ("<span>".data ++ (ds ++ "</span>".data))

def pageSession (t : List Char) : String :=
  String.mk ("<a href=\x22/x?".data ++ ("session_id=".data ++ (t ++ "\x22>y</a>".data)))

def pageId (a ds b : List Char) : String :=
  String.mk ("<div ".data ++ ("id=\x22".data ++ ((a ++ (ds ++ b)) ++ ('"' :: "></div>".data))))

abbrev validIso (t : List Char) : Prop := t.length = 19 ∧ isIsoAt t = true

abbrev validEpoch (ds : List Char) : Prop := 13 ≤ ds.length ∧ ∀ c ∈ ds, c.isDigit = true

abbrev validTok (t : List Char) : Prop := ∀ c ∈ t, lowerLetter c = true

abbrev validId (a ds b : List Char) : Prop :=
  (∀ c ∈ a, lowerLetter c = true) ∧ (∀ c ∈ b, lowerLetter c = true) ∧
    10 ≤ ds.length ∧ ds.length ≤ 12 ∧ ∀ c ∈ ds, c.isDigit = true

/-! ## Normal forms of the four families under normalizeContent -/

lemma normIso {t : List Char} (h19 : t.length = 19) (hiso : isIsoAt t = true) :
    normalizeContent (pageIso t) = "<time>TIMESTAMP</time>" := by
  have hfail : ∀ c u, (c :: u) <:+ "<time>".data →
      isoStep ((c :: u) ++ (t ++ "</time>".data)) = none := by
    intro c u hsuf
    exact isoStep_none_of_head_nondigit
      ((by decide : ∀ x ∈ "<time>".data, x.isDigit = false) c (head_mem_of_suffix hsuf))
  have h1 : isoScan ("<time>".data ++ (t ++ "</time>".data)) =
      "<time>".data ++ (tsRepl ++ "</time>".data) := by
    unfold isoScan
    rw [scan_append_of_fail _ _ hfail]
    rw [scan_some shrinking_isoStep (isoStep_fire "</time>".data h19 hiso)]
    rw [(by decide : scan isoStep "</time>".data = "</time>".data)]
  unfold normalizeContent
  rw [show (pageIso t).data = "<time>".data ++ (t ++ "</time>".data) from rfl]
  rw [h1]
  decide

lemma normEpoch {ds : List Char} (h13 : 13 ≤ ds.length)
    (hall : ∀ c ∈ ds, c.isDigit = true) :
    normalizeContent (pageEpoch ds) = "<span>TIMESTAMP</span>" := by
  have hnodash : ∀ c ∈ "<span>".data ++ (ds ++ "</span>".data), (c == '-') = false := by
    intro c hc
    rcases List.mem_append.1 hc with h | h
    · exact (by decide : ∀ x ∈ "<span>".data, (x == '-') = false) c h
    · rcases List.mem_append.1 h with h2 | h2
      · exact (digit_char_props (hall c h2)).1
      · exact (by decide : ∀ x ∈ "</span>".data, (x == '-') = false) c h2
  have hfail2 : ∀ c u, (c :: u) <:+ "<span>".data →
      digitsStep ((c :: u) ++ (ds ++ "</span>".data)) = none := by
    intro c u hsuf
    exact digitsStep_none_of_head_nondigit
      ((by decide : ∀ x ∈ "<span>".data, x.isDigit = false) c (head_mem_of_suffix hsuf))
  have h2 : digitsScan ("<span>".data ++ (ds ++ "</span>".data)) =
      "<span>".data ++ (tsRepl ++ "</span>".data) := by
    unfold digitsScan
    rw [scan_append_of_fail _ _ hfail2]
    rw [scan_some shrinking_digitsStep
      (digitsStep_fire "</span>".data hall h13 (by decide) (by decide))]
    rw [(by decide : scan digitsStep "</span>".data = "</span>".data)]
  unfold normalizeContent
  rw [show (pageEpoch ds).data = "<span>".data ++ (ds ++ "</span>".data) from rfl]
  rw [isoScan_id_of_no_dash hnodash, h2]
  decide

lemma normSession {t : List Char} (ht : ∀ c ∈ t, lowerLetter c = true) :
    normalizeContent (pageSession t) = "<a href=\x22/x?SESSION_ID\x22>y</a>" := by
  have hnodash : ∀ c ∈ "<a href=\x22/x?".data ++
      ("session_id=".data ++ (t ++ "\x22>y</a>".data)), (c == '-') = false := by
    intro c hc
    rcases List.mem_append.1 hc with h | h
    · exact (by decide : ∀ x ∈ "<a href=\x22/x?".data, (x == '-') = false) c h
    · rcases List.mem_append.1 h with h2 | h2
      · exact (by decide : ∀ x ∈ "session_id=".data, (x == '-') = false) c h2
      · rcases List.mem_append.1 h2 with h3 | h3
        · exact (lowerLetter_props (ht c h3)).1
        · exact (by decide : ∀ x ∈ "\x22>y</a>".data, (x == '-') = false) c h3
  have hnodigit : ∀ c ∈ "<a href=\x22/x?".data ++
      ("session_id=".data ++ (t ++ "\x22>y</a>".data)), c.isDigit = false := by
    intro c hc
    rcases List.mem_append.1 hc with h | h
    · exact (by decide : ∀ x ∈ "<a href=\x22/x?".data, x.isDigit = false) c h
    · rcases List.mem_append.1 h with h2 | h2
      · exact (by decide : ∀ x ∈ "session_id=".data, x.isDigit = false) c h2
      · rcases List.mem_append.1 h2 with h3 | h3
        · exact (lowerLetter_props (ht c h3)).2.2.1
        · exact (by decide : ∀ x ∈ "\x22>y</a>".data, x.isDigit = false) c h3
  have hfailP : ∀ c u, (c :: u) <:+ "<a href=\x22/x?".data →
      tokenStep "session".data "id".data "SESSION_ID".data
        ((c :: u) ++ ("session_id=".data ++ (t ++ "\x22>y</a>".data))) = none := by
    intro c u hsuf
    exact tokenStep_none_of_head_ne "ession".data "id".data "SESSION_ID".data
      ((by decide : ∀ x ∈ "<a href=\x22/x?".data, (lowerAscii x == 's') = false) c
        (head_mem_of_suffix hsuf))
  have hfire := sessionStep_fire t "\x22>y</a>".data
    (fun c hc => (lowerLetter_props (ht c hc)).2.2.2.1) (by decide)
  have h3 : tokenScan "session".data "id".data "SESSION_ID".data
      ("<a href=\x22/x?".data ++ ("session_id=".data ++ (t ++ "\x22>y</a>".data))) =
      "<a href=\x22/x?".data ++ ("SESSION_ID".data ++ "\x22>y</a>".data) := by
    unfold tokenScan
    rw [scan_append_of_fail _ _ hfailP]
    rw [scan_some (shrinking_tokenStep _ _ _) hfire]
    rw [(by decide : scan (tokenStep "session".data "id".data "SESSION_ID".data)
      "\x22>y</a>".data = "\x22>y</a>".data)]
  unfold normalizeContent
  rw [show (pageSession t).data = "<a href=\x22/x?".data ++
    ("session_id=".data ++ (t ++ "\x22>y</a>".data)) from rfl]
  rw [isoScan_id_of_no_dash hnodash]
  rw [digitsScan_id_of_no_digits hnodigit]
  rw [h3]
  decide

lemma normId {a ds b : List Char} (ha : ∀ c ∈ a, lowerLetter c = true)
    (hb : ∀ c ∈ b, lowerLetter c = true) (h10 : 10 ≤ ds.length)
    (h12 : ds.length ≤ 12) (hall : ∀ c ∈ ds, c.isDigit = true) :
    normalizeContent (pageId a ds b) = "<div id=\x22DYNAMIC_ID\x22></div>" := by
  have hnodash : ∀ c ∈ "<div ".data ++
      ("id=\x22".data ++ ((a ++ (ds ++ b)) ++ ('"' :: "></div>".data))),
      (c == '-') = false := by
    intro c hc
    rcases List.mem_append.1 hc with h | h
    · exact (by decide : ∀ x ∈ "<div ".data, (x == '-') = false) c h
    · rcases List.mem_append.1 h with h2 | h2
      · exact (by decide : ∀ x ∈ "id=\x22".data, (x == '-') = false) c h2
      · rcases List.mem_append.1 h2 with h3 | h3
        · rcases List.mem_append.1 h3 with h4 | h4
          · exact (lowerLetter_props (ha c h4)).1
          · rcases List.mem_append.1 h4 with h5 | h5
            · exact (digit_char_props (hall c h5)).1
            · exact (lowerLetter_props (hb c h5)).1
        · rcases List.mem_cons.1 h3 with h4 | h4
          · subst h4; decide
          · exact (by decide : ∀ x ∈ "></div>".data, (x == '-') = false) c h4
  have hnosep : ∀ c ∈ "<div ".data ++
      ("id=\x22".data ++ ((a ++ (ds ++ b)) ++ ('"' :: "></div>".data))),
      (c == '_') = false ∧ (c == '-') = false := by
    intro c hc
    refine ⟨?_, hnodash c hc⟩
    rcases List.mem_append.1 hc with h | h
    · exact (by decide : ∀ x ∈ "<div ".data, (x == '_') = false) c h
    · rcases List.mem_append.1 h with h2 | h2
      · exact (by decide : ∀ x ∈ "id=\x22".data, (x == '_') = false) c h2
      · rcases List.mem_append.1 h2 with h3 | h3
        · rcases List.mem_append.1 h3 with h4 | h4
          · exact (lowerLetter_props (ha c h4)).2.1
          · rcases List.mem_append.1 h4 with h5 | h5
            · exact (digit_char_props (hall c h5)).2.1
            · exact (lowerLetter_props (hb c h5)).2.1
        · rcases List.mem_cons.1 h3 with h4 | h4
          · subst h4; decide
          · exact (by decide : ∀ x ∈ "></div>".data, (x == '_') = false) c h4
  have hassoc : "<div ".data ++
      ("id=\x22".data ++ ((a ++ (ds ++ b)) ++ ('"' :: "></div>".data))) =
      ("<div ".data ++ ("id=\x22".data ++ a)) ++
        (ds ++ (b ++ ('"' :: "></div>".data))) := by
    simp [List.append_assoc]
  have hA : ∀ c ∈ "<div ".data ++ ("id=\x22".data ++ a), c.isDigit = false := by
    intro c hc
    rcases List.mem_append.1 hc with h | h
    · exact (by decide : ∀ x ∈ "<div ".data, x.isDigit = false) c h
    · rcases List.mem_append.1 h with h2 | h2
      · exact (by decide : ∀ x ∈ "id=\x22".data, x.isDigit = false) c h2
      · exact (lowerLetter_props (ha c h2)).2.2.1
  have hB : ∀ c ∈ b ++ ('"' :: "></div>".data), c.isDigit = false := by
    intro c hc
    rcases List.mem_append.1 hc with h | h
    · exact (lowerLetter_props (hb c h)).2.2.1
    · rcases List.mem_cons.1 h with h2 | h2
      · subst h2; decide
      · exact (by decide : ∀ x ∈ "></div>".data, x.isDigit = false) c h2
  have hfailDiv : ∀ c u, (c :: u) <:+ "<div ".data →
      idStep ((c :: u) ++
        ("id=\x22".data ++ ((a ++ (ds ++ b)) ++ ('"' :: "></div>".data)))) = none := by
    intro c u hsuf
    rw [show "<div ".data = '<' :: 'd' :: 'i' :: 'v' :: ' ' :: [] from rfl] at hsuf
    rcases List.suffix_cons_iff.1 hsuf with h | hsuf
    · rw [h]
      exact idStep_none_of_head_ne (by decide)
    rcases List.suffix_cons_iff.1 hsuf with h | hsuf
    · rw [h]
      exact idStep_none_of_head_ne (by decide)
    rcases List.suffix_cons_iff.1 hsuf with h | hsuf
    · rw [h]
      exact idStep_none_of_second_ne (by decide)
    rcases List.suffix_cons_iff.1 hsuf with h | hsuf
    · rw [h]
      exact idStep_none_of_head_ne (by decide)
    rcases List.suffix_cons_iff.1 hsuf with h | hsuf
    · rw [h]
      exact idStep_none_of_head_ne (by decide)
    · exact absurd (List.suffix_nil.1 hsuf) (List.cons_ne_nil c u)
  have hq : ∀ c ∈ a ++ (ds ++ b), (c == '"') = false := by
    intro c hc
    rcases List.mem_append.1 hc with h | h
    · exact (lowerLetter_props (ha c h)).2.2.2.2
    · rcases List.mem_append.1 h with h2 | h2
      · exact (digit_char_props (hall c h2)).2.2
      · exact (lowerLetter_props (hb c h2)).2.2.2.2
  have hrun : hasDigitRun10 (a ++ (ds ++ b)) = true :=
    hasDigitRun10_append_right (hasDigitRun10_of_run h10 hall) a
  have hfire := idStep_fire (a ++ (ds ++ b)) "></div>".data hq hrun
  have h6 : idScan ("<div ".data ++
      ("id=\x22".data ++ ((a ++ (ds ++ b)) ++ ('"' :: "></div>".data)))) =
      "<div ".data ++ (idRepl ++ "></div>".data) := by
    unfold idScan
    rw [scan_append_of_fail _ _ hfailDiv]
    rw [scan_some shrinking_idStep hfire]
    rw [(by decide : scan idStep "></div>".data = "></div>".data)]
  unfold normalizeContent
  rw [show (pageId a ds b).data = "<div ".data ++
    ("id=\x22".data ++ ((a ++ (ds ++ b)) ++ ('"' :: "></div>".data))) from rfl]
  rw [isoScan_id_of_no_dash hnodash]
  rw [hassoc, digitsScan_id_of_short_run _ _ _ hA hall h12 hB, ← hassoc]
  rw [tokenScan_id_of_no_sep "session".data "id".data "SESSION_ID".data hnosep]
  rw [tokenScan_id_of_no_sep "csrf".data "token".data "CSRF_TOKEN".data hnosep]
  rw [tokenScan_id_of_no_sep "authenticity".data "token".data "AUTH_TOKEN".data hnosep]
  rw [h6]
  decide

/-! ## C7 -/

/-- A concrete cache entry, state and full-content fetch for the C7 witness:
the entry fingerprints the session page with token `abc`, the second fetch
returns the same page with token `zzzz`, validators unchanged. -/
def c7Entry : CacheEntry :=
  { url := "u"
    etag := some "E"
    lastModified := some "L"
    contentHash := generateContentHash defaultSyncConfig (fun s => s) (pageSession "abc".data) 0
    lastChecked := 0
    lastUpdated := 0
    hitCount := 0 }

def c7State : SyncState :=
  { cache := [("u", c7Entry)]
    changeSignals := [] }

def c7Fetch : CFetch :=
  { content := pageSession "zzzz".data
    etag := some "E"
    lastModified := some "L"
    notModified := false }

/-- C7: with content hashing enabled, the fingerprint is a deterministic
function of the normalized content (independent of the clock), and two
contents differing only in a canonicalized volatile field — an ISO-8601
timestamp, a digit run of length ≥ 13, a `session_id` token, or an `id`
attribute with a run of ≥ 10 digits — hash identically; consequently, when a
full sync fetches content that differs from the cached fingerprint only in a
session token (validators unchanged), `detectChanges` reports no change and
no change signal is appended. -/
theorem C7_fingerprint_canonicalizes (cfg : IncrementalSyncConfig)
    (digest : String → String) (hcfg : cfg.enableContentHashing = true) :
    (∀ (content : String) (n1 n2 : Int),
        generateContentHash cfg digest content n1 = generateContentHash cfg digest content n2)
    ∧ (∀ (t1 t2 : List Char) (n1 n2 : Int), validIso t1 → validIso t2 →
        generateContentHash cfg digest (pageIso t1) n1 =
          generateContentHash cfg digest (pageIso t2) n2)
    ∧ (∀ (d1 d2 : List Char) (n1 n2 : Int), validEpoch d1 → validEpoch d2 →
        generateContentHash cfg digest (pageEpoch d1) n1 =
          generateContentHash cfg digest (pageEpoch d2) n2)
    ∧ (∀ (t1 t2 : List Char) (n1 n2 : Int), validTok t1 → validTok t2 →
        generateContentHash cfg digest (pageSession t1) n1 =
          generateContentHash cfg digest (pageSession t2) n2)
    ∧ (∀ (a1 d1 b1 a2 d2 b2 : List Char) (n1 n2 : Int),
        validId a1 d1 b1 → validId a2 d2 b2 →
        generateContentHash cfg digest (pageId a1 d1 b1) n1 =
          generateContentHash cfg digest (pageId a2 d2 b2) n2)
    ∧ (∀ (st : SyncState) (url : String) (e : CacheEntry) (fr : CFetch)
        (now n0 : Int) (t1 t2 : List Char), validTok t1 → validTok t2 →
        getCacheEntry st url = some e →
        e.contentHash = generateContentHash cfg digest (pageSession t1) n0 →
        e.etag = fr.etag → e.lastModified = fr.lastModified →
        fr.content = pageSession t2 →
        (syncFull cfg digest st url fr now).2.changed = false ∧
          (syncFull cfg digest st url fr now).1.changeSignals = st.changeSignals) := by
  have hg : ∀ (content : String) (n : Int),
      generateContentHash cfg digest content n = digest (normalizeContent content) := by
    intro content n
    unfold generateContentHash
    rw [hcfg]
    rfl
  refine ⟨?_, ?_, ?_, ?_, ?_, ?_⟩
  · intro content n1 n2
    rw [hg, hg]
  · intro t1 t2 n1 n2 h1 h2
    rw [hg, hg, normIso h1.1 h1.2, normIso h2.1 h2.2]
  · intro d1 d2 n1 n2 h1 h2
    rw [hg, hg, normEpoch h1.1 h1.2, normEpoch h2.1 h2.2]
  · intro t1 t2 n1 n2 h1 h2
    rw [hg, hg, normSession h1, normSession h2]
  · intro a1 d1 b1 a2 d2 b2 n1 n2 h1 h2
    rw [hg, hg, normId h1.1 h1.2.1 h1.2.2.1 h1.2.2.2.1 h1.2.2.2.2,
      normId h2.1 h2.2.1 h2.2.2.1 h2.2.2.2.1 h2.2.2.2.2]
  · intro st url e fr now n0 t1 t2 ht1 ht2 hce hhash hetag hlm hcontent
    have hhash2 : e.contentHash = generateContentHash cfg digest fr.content now := by
      rw [hcontent, hg, hhash, hg, normSession ht1, normSession ht2]
    have hdet : detectChanges (getCacheEntry st url)
        (createCacheEntry url fr (generateContentHash cfg digest fr.content now) now) = false := by
      rw [hce]
      unfold detectChanges createCacheEntry
      dsimp only
      rw [if_neg (by simp [hhash2])]
      rw [if_neg (by simp [hetag])]
      rw [if_neg (by simp [hlm])]
    constructor
    · rw [show (syncFull cfg digest st url fr now).2.changed =
        detectChanges (getCacheEntry st url)
          (createCacheEntry url fr (generateContentHash cfg digest fr.content now) now) from rfl]
      exact hdet
    · have h1 : (syncFull cfg digest st url fr now).1 =
          updateCacheEntry cfg st url
            (createCacheEntry url fr (generateContentHash cfg digest fr.content now) now) := by
        unfold syncFull
        dsimp only
        rw [if_neg (by simp [hdet])]
      rw [h1, updateCacheEntry_signals]

/-- Witness for C7 at concrete inputs: the shipped configuration hashes
content; the session pages with tokens `abc` and `zzzz` hash identically; and
a full sync of the `zzzz` page against a cache entry fingerprinting the `abc`
page reports no change and appends no change signal. -/
theorem C7_fingerprint_witness :
    defaultSyncConfig.enableContentHashing = true ∧
    (generateContentHash defaultSyncConfig (fun s => s) (pageSession "abc".data) 5 =
      generateContentHash defaultSyncConfig (fun s => s) (pageSession "zzzz".data) 99) ∧
    (syncFull defaultSyncConfig (fun s => s) c7State "u" c7Fetch 7).2.changed = false ∧
    (syncFull defaultSyncConfig (fun s => s) c7State "u" c7Fetch 7).1.changeSignals =
      c7State.changeSignals :=
  ⟨rfl,
   (C7_fingerprint_canonicalizes defaultSyncConfig (fun s => s) rfl).2.2.2.1
     "abc".data "zzzz".data 5 99 (by decide) (by decide),
   ((C7_fingerprint_canonicalizes defaultSyncConfig (fun s => s) rfl).2.2.2.2.2
     c7State "u" c7Entry c7Fetch 7 0 "abc".data "zzzz".data (by decide) (by decide)
     rfl rfl rfl rfl rfl).1,
   ((C7_fingerprint_canonicalizes defaultSyncConfig (fun s => s) rfl).2.2.2.2.2
     c7State "u" c7Entry c7Fetch 7 0 "abc".data "zzzz".data (by decide) (by decide)
     rfl rfl rfl rfl rfl).2⟩

end CanvasCrawler
